import Mathlib

/-!
Verification of the maze exploration / pathfinding engine of the
`maze-with-api` repository (`src/app/shared/stores/maze.store.ts`).

The TypeScript store is a stateful Angular service that talks to a remote
maze gateway.  We embed it shallowly:

* the mutable signals of `MazeStore` become the fields of `StoreState`;
* the remote gateway (`MazeService` + HTTP) becomes a deterministic oracle
  `Gateway` mapping the capability url and the request arguments to either a
  response or an error string (a network failure and a 3s timeout are both
  just `Except.error`, exactly as the store treats them);
* every method of the store becomes a pure function from the old state to
  the new state; methods that `throw` return an `Except` together with the
  updated state;
* the JavaScript string key `` `${x},${y}` `` of the visited set and of the
  discovered map is in bijection with the integer pair `(x, y)`, so sets and
  maps are keyed directly by the coordinate pair;
* a ghost field `calls` records the sequence of gateway requests issued, so
  that theorems can speak about which remote calls a run performs;
* the recursive DFS gets an explicit `fuel : Nat` argument and returns
  `none` exactly when the recursion depth exceeds the fuel; a completed
  run of the TypeScript code corresponds to any `some` result.
-/

set_option maxRecDepth 20000

namespace Maze

/-- Kinds of maze cells, from `src/app/shared/enums` (values used by the
code: `path`, `wall`, `trap`, `stop`). -/
inductive CELL_TYPE where
  | path
  | wall
  | trap
  | stop
deriving DecidableEq, Repr

/-- A discovered cell, from `src/app/shared/interfaces`: coordinates plus
`move` (is the agent allowed to move onto it) and its kind. -/
structure Cell where
  move : Bool
  value : CELL_TYPE
  x : Int
  y : Int
deriving DecidableEq, Repr

/-- An integer coordinate pair, from `src/app/shared/interfaces`. -/
structure CellCoordinates where
  x : Int
  y : Int
deriving DecidableEq, Repr, Inhabited

/-- The body of a gateway response to `start` / `move`, as consumed by
`updateGameState`. -/
structure ApiResponse where
  position_x : Int
  position_y : Int
  dead : Bool
  win : Bool
  url_move : String
  url_discover : String
deriving DecidableEq, Repr

/-- One element of `_results` / `allPaths`: an ordered coordinate sequence
and its recorded length. -/
structure PathCandidate where
  path : List CellCoordinates
  length : Nat
deriving DecidableEq, Repr, Inhabited

/-- Ghost record of one gateway request (the observable I/O of the store). -/
inductive GCall where
  | move (url : String) (x y : Int)
  | discover (url : String)
deriving DecidableEq, Repr

/-- The remote maze gateway, as a deterministic oracle keyed by the
capability url and the request arguments.  `Except.error` covers network
errors, illegal moves and timeouts alike.  Because every response carries
the next capability urls, an evolving url chain lets a single oracle encode
arbitrary per-call behaviour. -/
structure Gateway where
  move : String → Int → Int → Except String ApiResponse
  discover : String → Except String (List Cell)

/-- The mutable state of `MazeStore`: one field per signal, plus the ghost
trace `calls` of issued gateway requests. -/
structure StoreState where
  position : CellCoordinates
  map : List (CellCoordinates × Cell)
  isDead : Bool
  isWin : Bool
  moveUrl : String
  discoverUrl : String
  log : List String
  visited : List CellCoordinates
  isExploring : Bool
  isFinish : Bool
  results : List PathCandidate
  calls : List GCall
deriving DecidableEq, Repr, Inhabited

/-- JavaScript `Set.add`: append the key if it is not already present
(insertion order preserved). -/
def setAdd (s : List CellCoordinates) (k : CellCoordinates) : List CellCoordinates :=
  if k ∈ s then s else s ++ [k]

/-- JavaScript `Map.set`: overwrite in place if the key is present,
otherwise append. -/
def mapSet : List (CellCoordinates × Cell) → CellCoordinates → Cell → List (CellCoordinates × Cell)
  | [], k, v => [(k, v)]
  | (k', v') :: rest, k, v =>
    if k' = k then (k, v) :: rest else (k', v') :: mapSet rest k v

/-- JavaScript `Map.get`. -/
def mapLookup : List (CellCoordinates × Cell) → CellCoordinates → Option Cell
  | [], _ => none
  | (k', v') :: rest, k => if k' = k then some v' else mapLookup rest k

/-- The coordinates of a discovered cell (the TS code passes the `Cell`
itself where a `CellCoordinates` is expected, by structural typing). -/
def cellCoord (c : Cell) : CellCoordinates :=
  ⟨c.x, c.y⟩

/-- `coordKey`: the TS code builds the string `` `${x},${y}` ``; this map is
injective on integer pairs, so we key by the pair itself. -/
def coordKey (pos : CellCoordinates) : CellCoordinates :=
  pos

/-- `addLog`: append an entry to the ordered log. -/
def addLog (entry : String) (s : StoreState) : StoreState :=
  { s with log := s.log ++ [entry] }

/-- Ghost operation: record one issued gateway request. -/
def recordCall (c : GCall) (s : StoreState) : StoreState :=
  { s with calls := s.calls ++ [c] }

/-- `updateGameState`: install position, flags and capability urls from a
gateway response; reset the visited set to the new position or add the new
position to it. -/
def updateGameState (data : ApiResponse) (resetVisited : Bool) (s : StoreState) : StoreState :=
  let s1 : StoreState :=
    { s with
      position := ⟨data.position_x, data.position_y⟩
      isDead := data.dead
      isWin := data.win
      moveUrl := data.url_move
      discoverUrl := data.url_discover }
  let key : CellCoordinates := ⟨data.position_x, data.position_y⟩
  if resetVisited then { s1 with visited := [key] }
  else { s1 with visited := setAdd s1.visited key }

/-- `updateFromMove`: state update after a move (keeps the visited set). -/
def updateFromMove (data : ApiResponse) (s : StoreState) : StoreState :=
  updateGameState data false s

/-- `discoverCells`: merge a batch of discovered cells into the global map
(insert-or-overwrite by coordinate key). -/
def discoverCells (cells : List Cell) (s : StoreState) : StoreState :=
  { s with map := cells.foldl (fun m c => mapSet m (cellCoord c) c) s.map }

/-- `moveToCell`: issue a `move` request; on success apply
`updateFromMove`, on failure append an error log entry and rethrow. -/
def moveToCell (gw : Gateway) (pos : CellCoordinates) (s : StoreState) :
    Except String Unit × StoreState :=
  let s1 := recordCall (GCall.move s.moveUrl pos.x pos.y) s
  match gw.move s.moveUrl pos.x pos.y with
  | Except.ok result => (Except.ok (), updateFromMove result s1)
  | Except.error err =>
    (Except.error err,
      addLog ("Erreur lors du move vers (" ++ toString pos.x ++ ", " ++ toString pos.y
        ++ ") : " ++ err) s1)

/-- `discoverSurroundings`: issue a `discover` request; on success merge
the cells into the map and return them, on failure append a log entry and
rethrow. -/
def discoverSurroundings (gw : Gateway) (s : StoreState) :
    Except String (List Cell) × StoreState :=
  let s1 := recordCall (GCall.discover s.discoverUrl) s
  match gw.discover s.discoverUrl with
  | Except.ok cells => (Except.ok cells, discoverCells cells s1)
  | Except.error err =>
    (Except.error err, addLog ("Erreur lors de la découverte : " ++ err) s1)

/-- `tryMoveToCell`: catch a failed move, log it, and report `false`
instead of rethrowing. -/
def tryMoveToCell (gw : Gateway) (cell : CellCoordinates) (s : StoreState) :
    Bool × StoreState :=
  match moveToCell gw cell s with
  | (Except.ok _, s1) => (true, s1)
  | (Except.error err, s1) =>
    (false,
      addLog ("Erreur déplacement vers (" ++ toString cell.x ++ ", " ++ toString cell.y
        ++ ") : " ++ err) s1)

/-- `getDiscoverableNeighbors`: catch a failed discovery and report `none`. -/
def getDiscoverableNeighbors (gw : Gateway) (s : StoreState) :
    Option (List Cell) × StoreState :=
  match discoverSurroundings gw s with
  | (Except.ok cells, s1) => (some cells, s1)
  | (Except.error _, s1) => (none, s1)

/-- `logExplorationStep`. -/
def logExplorationStep (cell : CellCoordinates) (step : Nat) (s : StoreState) : StoreState :=
  addLog ("Exploration (" ++ toString step ++ ") : (" ++ toString cell.x ++ ", "
    ++ toString cell.y ++ ")") s

/-- `getCurrentCellFromPath`: `path[path.length - 1]`. -/
def getCurrentCellFromPath (path : List CellCoordinates) : CellCoordinates :=
  path.getLastD ⟨0, 0⟩

/-- `isVisited`. -/
def isVisited (key : CellCoordinates) (visited : List CellCoordinates) : Bool :=
  decide (key ∈ visited)

/-- `markVisited`. -/
def markVisited (key : CellCoordinates) (visited : List CellCoordinates) :
    List CellCoordinates :=
  setAdd visited key

/-- `canExploreCell`: not yet visited, reachable, and not a trap. -/
def canExploreCell (cell : Cell) (key : CellCoordinates) (visited : List CellCoordinates) :
    Bool :=
  !decide (key ∈ visited) && cell.move && !decide (cell.value = CELL_TYPE.trap)

/-- `buildNextPath`. -/
def buildNextPath (path : List CellCoordinates) (cell : Cell) : List CellCoordinates :=
  path ++ [⟨cell.x, cell.y⟩]

/-- `isGoalCell`. -/
def isGoalCell (cell : Cell) : Bool :=
  decide (cell.value = CELL_TYPE.stop)

/-- The state threaded through one DFS run: the store (`this`), the
run-local shared `visited` set and the shared `allPaths` output list. -/
structure DfsState where
  store : StoreState
  visited : List CellCoordinates
  allPaths : List PathCandidate
deriving DecidableEq, Repr, Inhabited

/-- `recordExitPath`: push the path with its length and log the exit. -/
def recordExitPath (path : List CellCoordinates) (s : DfsState) : DfsState :=
  { s with
    allPaths := s.allPaths ++ [⟨path, path.length⟩]
    store := addLog ("Sortie trouvée en " ++ toString path.length ++ " étapes.") s.store }

/-- `returnToPrevious`: backtrack move after a branch; a failure is logged
but not propagated. -/
def returnToPrevious (gw : Gateway) (cell : CellCoordinates) (s : StoreState) : StoreState :=
  match moveToCell gw cell s with
  | (Except.ok _, s1) =>
    addLog ("Retour vers (" ++ toString cell.x ++ ", " ++ toString cell.y
      ++ ") après impasse.") s1
  | (Except.error err, s1) =>
    addLog ("Erreur retour arrière vers (" ++ toString cell.x ++ ", " ++ toString cell.y
      ++ ") : " ++ err) s1

/-- Body of `handleCellExploration`, parameterised by the recursive call
`explorer` (which is `exploreFromCell` at the next smaller fuel). -/
def handleCellExplorationAux (gw : Gateway)
    (explorer : List CellCoordinates → DfsState → Option DfsState)
    (current : CellCoordinates) (cell : Cell) (path : List CellCoordinates)
    (s : DfsState) : Option DfsState :=
  let nextKey := coordKey (cellCoord cell)
  if !canExploreCell cell nextKey s.visited then some s
  else
    let nextPath := buildNextPath path cell
    if isGoalCell cell then some (recordExitPath nextPath s)
    else
      match explorer nextPath s with
      | none => none
      | some s1 => some { s1 with store := returnToPrevious gw current s1.store }

/-- Body of `exploreNeighbors`: the sequential `for` loop over the
discovered neighbor cells. -/
def exploreNeighborsAux (gw : Gateway)
    (explorer : List CellCoordinates → DfsState → Option DfsState)
    (current : CellCoordinates) :
    List Cell → List CellCoordinates → DfsState → Option DfsState
  | [], _, s => some s
  | cell :: rest, path, s =>
    match handleCellExplorationAux gw explorer current cell path s with
    | none => none
    | some s1 => exploreNeighborsAux gw explorer current rest path s1

/-- `exploreFromCell`: one DFS frame.  `none` means the artificial fuel ran
out; the TypeScript recursion corresponds to a `some` result. -/
def exploreFromCell (gw : Gateway) : Nat → List CellCoordinates → DfsState → Option DfsState
  | 0, _, _ => none
  | Nat.succ fuel, path, s =>
    let current := getCurrentCellFromPath path
    let key := coordKey current
    if isVisited key s.visited then some s
    else
      let s1 : DfsState := { s with visited := markVisited key s.visited }
      match tryMoveToCell gw current s1.store with
      | (false, st1) => some { s1 with store := st1 }
      | (true, st1) =>
        let st2 := logExplorationStep current path.length st1
        match getDiscoverableNeighbors gw st2 with
        | (none, st3) => some { s1 with store := st3 }
        | (some neighbors, st3) =>
          exploreNeighborsAux gw (exploreFromCell gw fuel) current neighbors path
            { s1 with store := st3 }

/-- `handleCellExploration` at a given fuel. -/
def handleCellExploration (gw : Gateway) (fuel : Nat) (current : CellCoordinates)
    (cell : Cell) (path : List CellCoordinates) (s : DfsState) : Option DfsState :=
  handleCellExplorationAux gw (exploreFromCell gw fuel) current cell path s

/-- `exploreNeighbors` at a given fuel. -/
def exploreNeighbors (gw : Gateway) (fuel : Nat) (current : CellCoordinates)
    (neighbors : List Cell) (path : List CellCoordinates) (s : DfsState) : Option DfsState :=
  exploreNeighborsAux gw (exploreFromCell gw fuel) current neighbors path s

/-- `startExploration`: fresh run-local `visited` and `allPaths`, then the
root DFS call on the one-element path `[start]`. -/
def startExploration (gw : Gateway) (fuel : Nat) (start : CellCoordinates)
    (store : StoreState) : Option (List PathCandidate × StoreState) :=
  match exploreFromCell gw fuel [start] ⟨store, [], []⟩ with
  | none => none
  | some s => some (s.allPaths, s.store)

/-- The comparator of `logPaths`: `(a, b) => a.length - b.length`. -/
def lengthLe (a b : PathCandidate) : Bool :=
  decide (a.length ≤ b.length)

/-- Insert a candidate after every already-placed candidate of smaller or
equal length (the stable position). -/
def insertByLength (a : PathCandidate) : List PathCandidate → List PathCandidate
  | [] => [a]
  | b :: rest => if lengthLe b a then b :: insertByLength a rest else a :: b :: rest

/-- JavaScript `Array.prototype.sort` with the comparator
`(a, b) => a.length - b.length` is a stable sort, and a stable sort by a
total preorder has a unique result; we compute it as a stable insertion
sort. -/
def sortByLength (l : List PathCandidate) : List PathCandidate :=
  l.foldl (fun acc a => insertByLength a acc) []

/-- `logPaths`: sort `allPaths` ascending by length and log the summary.
The TS code sorts the array in place; we return the sorted list. -/
def logPaths (allPaths : List PathCandidate) (s : StoreState) :
    List PathCandidate × StoreState :=
  let sorted := sortByLength allPaths
  let s1 := addLog ("Résumé des chemins vers la sortie") s
  let s2 := sorted.enum.foldl
    (fun st p =>
      addLog ("Chemin " ++ toString (p.1 + 1) ++ " : " ++ toString p.2.length ++ " cases.") st)
    s1
  let shortest := sorted.headD default
  (sorted, addLog ("Chemin le plus court : " ++ toString shortest.length ++ " cases.") s2)

/-- `explore`: run the DFS from the current position; publish the collected
paths (sorted by `logPaths`, which sorts the very array stored in the
`results` signal in place) or log that none was found.  When no path is
found the `results` signal is left untouched. -/
def explore (gw : Gateway) (fuel : Nat) (store : StoreState) : Option StoreState :=
  let start := store.position
  match startExploration gw fuel start store with
  | none => none
  | some (allPaths, store1) =>
    if allPaths.length = 0 then
      some (addLog ("Aucun chemin vers la sortie trouvé.") store1)
    else
      let (sorted, store2) := logPaths allPaths store1
      some { store2 with results := sorted }

/-- `finishExploration`: disarm exploration and log the message. -/
def finishExploration (message : String) (s : StoreState) : StoreState :=
  addLog message { s with isExploring := false }

/-- The `for (const step of steps)` loop of `followShortestPath`, followed
by the success epilogue.  A failed move logs the failure and stops without
marking the session finished. -/
def followSteps (gw : Gateway) : List CellCoordinates → StoreState → StoreState
  | [], s =>
    let s1 := finishExploration ("Le joueur est arrivé à la sortie !") s
    { s1 with isFinish := true }
  | step :: rest, s =>
    match moveToCell gw step s with
    | (Except.ok _, s1) =>
      followSteps gw rest
        (addLog ("Déplacement vers (" ++ toString step.x ++ ", " ++ toString step.y ++ ")") s1)
    | (Except.error err, s1) =>
      addLog ("Échec déplacement vers (" ++ toString step.x ++ ", " ++ toString step.y
        ++ ") : " ++ err) s1

/-- `followShortestPath`: with no results, log and mark finished; otherwise
walk `results[0]`, skipping its first coordinate (the current position). -/
def followShortestPath (gw : Gateway) (store : StoreState) : StoreState :=
  let results := store.results
  if results.length = 0 then
    let s1 := addLog ("Aucun chemin disponible vers la sortie.") store
    { s1 with isFinish := true }
  else
    let shortest := results.headD default
    let s1 := addLog ("Début du trajet vers la sortie (" ++ toString shortest.length
      ++ " étapes).") store
    let steps := shortest.path.drop 1
    followSteps gw steps s1

/-- `chooseNextMove`: first reachable, non-trap, not-yet-visited neighbor
(the visited set here is the store signal `_visited`). -/
def chooseNextMove (cells : List Cell) (s : StoreState) : Option Cell :=
  cells.find? (fun cell =>
    cell.move && !decide (cell.value = CELL_TYPE.trap) && !decide (cellCoord cell ∈ s.visited))

/-- `moveTo`: move used by the autonomous stepper; does not log on error,
just rethrows. -/
def moveTo (gw : Gateway) (cell : Cell) (s : StoreState) : Except String Unit × StoreState :=
  let s1 := recordCall (GCall.move s.moveUrl cell.x cell.y) s
  match gw.move s.moveUrl cell.x cell.y with
  | Except.ok result => (Except.ok (), updateFromMove result s1)
  | Except.error err => (Except.error err, s1)

/-- `safeMoveTo`: catch and log a failed stepper move. -/
def safeMoveTo (gw : Gateway) (cell : Cell) (s : StoreState) : StoreState :=
  match moveTo gw cell s with
  | (Except.ok _, s1) => s1
  | (Except.error err, s1) =>
    addLog ("Erreur lors du déplacement vers (" ++ toString cell.x ++ ", " ++ toString cell.y
      ++ ") : " ++ err) s1

/-- `exploreNext`: one tick of the autonomous stepper.  `isExploringNow` is
the in-flight instance field as read at entry (the error message uses
`JSON.stringify(err)`, modelled by the error string itself). -/
def exploreNext (gw : Gateway) (isExploringNow : Bool) (s : StoreState) : StoreState :=
  if s.isWin || s.isDead || isExploringNow then s
  else
    match discoverSurroundings gw s with
    | (Except.error err, s1) =>
      finishExploration ("Erreur pendant l\x27exploration : " ++ err) s1
    | (Except.ok cells, s1) =>
      match chooseNextMove cells s1 with
      | none => finishExploration ("Exploration terminée : aucun chemin sûr trouvé.") s1
      | some next =>
        let s2 := safeMoveTo gw next s1
        addLog ("Déplacement vers (" ++ toString next.x ++ ", " ++ toString next.y ++ ")") s2

/-- The constructor `effect`: when a discover url is available, exploration
is armed and no step is in flight, it sets `isExploringNow` to `true` and
only then invokes `exploreNext` — which therefore reads the flag as `true`. -/
def stepperEffectTick (gw : Gateway) (isExploringNow : Bool) (s : StoreState) : StoreState :=
  if !decide (s.discoverUrl = "") && s.isExploring && !isExploringNow then
    exploreNext gw true s
  else s

/-! ### Environment assumptions and claim-level predicates -/

/-- A gateway is discover-consistent with a cell map `cellAt` when every
cell of every successful discover response agrees with `cellAt` (the spec:
"Cells are immutable once discovered"). -/
def Consistent (gw : Gateway) (cellAt : CellCoordinates → Option Cell) : Prop :=
  ∀ url cells, gw.discover url = Except.ok cells →
    ∀ c ∈ cells, cellAt (cellCoord c) = some c

/-- A coordinate whose reported cell (if any) is neither a trap nor an
exit. -/
def SafeCoord (cellAt : CellCoordinates → Option Cell) (q : CellCoordinates) : Prop :=
  ∀ c, cellAt q = some c → c.value ≠ CELL_TYPE.trap ∧ c.value ≠ CELL_TYPE.stop

/-- Shape of a recorded exit path relative to a cell map: its last
coordinate carries a `stop` cell and every earlier coordinate is neither a
trap nor a stop. -/
def SafeExitShape (cellAt : CellCoordinates → Option Cell) (pc : PathCandidate) : Prop :=
  (∃ c, cellAt (pc.path.getLastD ⟨0, 0⟩) = some c ∧ c.value = CELL_TYPE.stop) ∧
    ∀ q ∈ pc.path.dropLast, SafeCoord cellAt q

/-- A gateway whose `move` endpoint always succeeds. -/
def AlwaysMoves (gw : Gateway) : Prop :=
  ∀ url x y, ∃ r, gw.move url x y = Except.ok r

/-- The coordinates targeted by the `move` requests of a call trace. -/
def moveTargets (l : List GCall) : List (Int × Int) :=
  l.filterMap (fun c =>
    match c with
    | GCall.move _ x y => some (x, y)
    | GCall.discover _ => none)

/-- State extension along a DFS computation: the run-local visited set only
grows, recorded paths are only appended, and gateway calls are only
appended. -/
def Extends (s res : DfsState) : Prop :=
  s.visited ⊆ res.visited ∧
    (∃ new, res.allPaths = s.allPaths ++ new) ∧
    (∃ nc, res.store.calls = s.store.calls ++ nc) ∧
    res.store.results = s.store.results

/-- One step of the walk notion used by claim C1: the target is listed by
the maze as a reachable neighbor of the source.  (Claim formalization, not
translated from the code.) -/
def isNeighborStep (nbrs : CellCoordinates → List Cell) (p q : CellCoordinates) : Bool :=
  (nbrs p).any (fun c => decide (c.x = q.x) && decide (c.y = q.y) && c.move)

/-- All consecutive steps of a walk are neighbor steps.  (Claim
formalization.) -/
def chainSteps (nbrs : CellCoordinates → List Cell) : List CellCoordinates → Bool
  | [] => true
  | [_] => true
  | p :: q :: rest => isNeighborStep nbrs p q && chainSteps nbrs (q :: rest)

/-- The walk notion quantified over by claim C1: starts at the start cell,
never revisits a coordinate, only takes neighbor steps, ends at a cell of
kind `stop`, and never steps on a `trap`.  (Claim formalization, not
translated from the code.) -/
def claimSafeExitWalk (nbrs : CellCoordinates → List Cell)
    (cellAt : CellCoordinates → Option Cell) (start : CellCoordinates)
    (walk : List CellCoordinates) : Bool :=
  decide (walk.head? = some start) && decide walk.Nodup && chainSteps nbrs walk &&
    (match cellAt (walk.getLastD ⟨0, 0⟩) with
     | some c => decide (c.value = CELL_TYPE.stop)
     | none => false) &&
    walk.all (fun q =>
      match cellAt q with
      | some c => !decide (c.value = CELL_TYPE.trap)
      | none => true)

/-! ### Concrete test mazes and gateways -/

/-- Test cells for the concrete mazes. -/
def cS : Cell := ⟨true, CELL_TYPE.path, 0, 0⟩

def cA : Cell := ⟨true, CELL_TYPE.path, 1, 0⟩

def cB : Cell := ⟨true, CELL_TYPE.path, 0, 1⟩

def cC : Cell := ⟨true, CELL_TYPE.path, 1, 1⟩

def cE : Cell := ⟨true, CELL_TYPE.stop, 2, 1⟩

/-- Discover-capability url encoding the cell the agent stands on. -/
def urlOf (p : CellCoordinates) : String :=
  "d:" ++ toString p.x ++ "," ++ toString p.y

/-- A gateway for a static maze: every move succeeds and installs the
discover url of the target; discovery answers from the neighbor table for
the known coordinates. -/
def gwOfMaze (nbrs : CellCoordinates → List Cell) (coords : List CellCoordinates) :
    Gateway where
  move := fun _ x y => Except.ok ⟨x, y, false, false, "m", urlOf ⟨x, y⟩⟩
  discover := fun url =>
    match coords.find? (fun p => decide (urlOf p = url)) with
    | some p => Except.ok (nbrs p)
    | none => Except.error ("url inconnue")

/-- Maze for claim C1: a 2×2 block of free cells with one exit, reachable
from the start by two distinct simple routes. -/
def nbrsC1 (p : CellCoordinates) : List Cell :=
  if p = ⟨0, 0⟩ then [cA, cB]
  else if p = ⟨1, 0⟩ then [cS, cC]
  else if p = ⟨0, 1⟩ then [cS, cC]
  else if p = ⟨1, 1⟩ then [cA, cB, cE]
  else []

/-- The coordinates the agent can stand on in the C1 maze. -/
def coordsC1 : List CellCoordinates := [⟨0, 0⟩, ⟨1, 0⟩, ⟨0, 1⟩, ⟨1, 1⟩]

/-- Gateway of the C1 maze. -/
def gwC1 : Gateway := gwOfMaze nbrsC1 coordsC1

/-- The cell actually sitting at each coordinate of the C1 maze. -/
def cellAtC1 (p : CellCoordinates) : Option Cell :=
  if p = ⟨0, 0⟩ then some cS
  else if p = ⟨1, 0⟩ then some cA
  else if p = ⟨0, 1⟩ then some cB
  else if p = ⟨1, 1⟩ then some cC
  else if p = ⟨2, 1⟩ then some cE
  else none

/-- Store state right after a successful start response at the origin. -/
def storeC1 : StoreState :=
  { position := ⟨0, 0⟩, map := [], isDead := false, isWin := false,
    moveUrl := "m", discoverUrl := "d:0,0", log := [], visited := [⟨0, 0⟩],
    isExploring := true, isFinish := false, results := [], calls := [] }

/-- The route through (1,0) to the exit of the C1 maze. -/
def routeA : List CellCoordinates := [⟨0, 0⟩, ⟨1, 0⟩, ⟨1, 1⟩, ⟨2, 1⟩]

/-- The route through (0,1) to the same exit. -/
def routeB : List CellCoordinates := [⟨0, 0⟩, ⟨0, 1⟩, ⟨1, 1⟩, ⟨2, 1⟩]

/-- Exit cell next to the start in the C4 maze. -/
def cF : Cell := ⟨true, CELL_TYPE.stop, 0, 1⟩

/-- Far exit cell of the C4 maze. -/
def cE4 : Cell := ⟨true, CELL_TYPE.stop, 2, 0⟩

/-- Maze for claim C4: two exits, found in non-sorted order (the length-3
route is recorded before the length-2 route). -/
def nbrsC4 (p : CellCoordinates) : List Cell :=
  if p = ⟨0, 0⟩ then [cA, cF]
  else if p = ⟨1, 0⟩ then [cS, cE4]
  else []

/-- The coordinates the agent can stand on in the C4 maze. -/
def coordsC4 : List CellCoordinates := [⟨0, 0⟩, ⟨1, 0⟩]

/-- Gateway of the C4 maze. -/
def gwC4 : Gateway := gwOfMaze nbrsC4 coordsC4

/-- A gateway on which every request fails (network down). -/
def gwFail : Gateway where
  move := fun _ _ _ => Except.error ("panne")
  discover := fun _ => Except.error ("panne")

/-- The length-2 recorded path of the C4 maze. -/
def pr2 : PathCandidate := ⟨[⟨0, 0⟩, ⟨0, 1⟩], 2⟩

/-- The length-3 recorded path of the C4 maze. -/
def pr3 : PathCandidate := ⟨[⟨0, 0⟩, ⟨1, 0⟩, ⟨2, 0⟩], 3⟩

/-- The single path the DFS records in the C1 maze, as a candidate. -/
def prA : PathCandidate := ⟨routeA, 4⟩

/-- The missing route of the C1 maze, as a candidate (used to seed
`allPaths` in the C3 witness). -/
def prB : PathCandidate := ⟨routeB, 4⟩

/-- Result state of the completed C1 exploration. -/
def stC1 : StoreState := (explore gwC1 100 storeC1).getD default

/-- Result state of the completed C4 exploration. -/
def stC4 : StoreState := (explore gwC4 100 storeC1).getD default

/-- The `(allPaths, store)` pair of the C4 root DFS call. -/
def pairC4 : List PathCandidate × StoreState :=
  (startExploration gwC4 100 storeC1.position storeC1).getD default

/-- An empty-run DFS state over the C1 store. -/
def dfs0 : DfsState := ⟨storeC1, [], []⟩

/-- A DFS state whose `allPaths` is already populated (seed for the C3
witness). -/
def dfsSeed : DfsState := ⟨storeC1, [], [prB]⟩

/-- Result of the C1 DFS run from the seeded state. -/
def resSeed : DfsState := (exploreFromCell gwC1 100 [⟨0, 0⟩] dfsSeed).getD default

/-- Result of handling the exit neighbor in one concrete step. -/
def handledE : DfsState :=
  (handleCellExploration gwC1 5 ⟨0, 0⟩ cE [⟨0, 0⟩] dfs0).getD default

/-- A store holding navigation results (C6/C7 witnesses). -/
def storeNav : StoreState :=
  { storeC1 with results := [pr2, prA] }

/-- State returned by the failing move in the C6 witness. -/
def s1W : StoreState := (moveToCell gwFail ⟨0, 1⟩ storeNav).2

/-- A store whose map already holds one discovered cell (C9 witness). -/
def storeMap : StoreState := { storeC1 with map := [(⟨5, 5⟩, cS)] }

/-- Result of exploring with the network down (C10 witness). -/
def stFail : StoreState := (explore gwFail 1 storeC1).getD default

/-! ## Theorems -/

/-- Claim C8 (code-bug evidence): the constructor `effect` sets the
in-flight flag `isExploringNow` to `true` and only then invokes
`exploreNext`, whose very first guard reads that flag and returns
immediately.  Hence a triggered stepper tick never issues a discover call,
never moves, and leaves the state untouched — contradicting the claim (and
the code's own comments), for every gateway and every state. -/
theorem c8_stepper_tick_is_noop (gw : Gateway) (b : Bool) (s : StoreState) :
    stepperEffectTick gw b s = s := by
  unfold stepperEffectTick
  split
  · unfold exploreNext
    simp
  · rfl

/-- Claim C5: when `results` is empty, `followShortestPath` only appends
the "no path available" log entry and sets `finished`; in particular it
issues no gateway call and leaves `position`, `map` and `visited` (and
every other field) unchanged. -/
theorem c5_follow_no_results (gw : Gateway) (store : StoreState)
    (h : store.results = []) :
    followShortestPath gw store =
      { store with
        log := store.log ++ ["Aucun chemin disponible vers la sortie."]
        isFinish := true } := by
  unfold followShortestPath addLog
  simp [h]

/-- Witness for C5 at a concrete store with empty results. -/
theorem c5_follow_no_results_witness :
    followShortestPath gwC1 storeC1 =
      { storeC1 with
        log := storeC1.log ++ ["Aucun chemin disponible vers la sortie."]
        isFinish := true } :=
  c5_follow_no_results gwC1 storeC1 rfl

/-- Claim C1 (counterexample): in the C1 maze the exit (2,1) is reachable
by the two distinct safe simple walks `routeA` and `routeB`; the explore
run completes, records `routeA`, but does not record `routeB` — because the
DFS shares one visited set across branches, (0,1) is consumed while
exploring the branch through (1,0) and the second route is skipped.  So a
completed run does not record every trap-free non-revisiting walk from
start to an exit. -/
theorem c1_counterexample :
    claimSafeExitWalk nbrsC1 cellAtC1 ⟨0, 0⟩ routeA = true ∧
      claimSafeExitWalk nbrsC1 cellAtC1 ⟨0, 0⟩ routeB = true ∧
      (explore gwC1 100 storeC1).isSome = true ∧
      (explore gwC1 100 storeC1).map
        (fun st => (st.results.map PathCandidate.path).contains routeA) = some true ∧
      (explore gwC1 100 storeC1).map
        (fun st => (st.results.map PathCandidate.path).contains routeB) = some false := by
  decide


theorem handleAux_eq (gw : Gateway)
    (explorer : List CellCoordinates → DfsState → Option DfsState)
    (current : CellCoordinates) (cell : Cell) (path : List CellCoordinates) (s : DfsState) :
    handleCellExplorationAux gw explorer current cell path s =
      if !canExploreCell cell (coordKey (cellCoord cell)) s.visited then some s
      else if isGoalCell cell then some (recordExitPath (buildNextPath path cell) s)
      else
        match explorer (buildNextPath path cell) s with
        | none => none
        | some s1 => some { s1 with store := returnToPrevious gw current s1.store } := rfl

theorem exploreFromCell_succ_eq (gw : Gateway) (fuel : Nat) (path : List CellCoordinates)
    (s : DfsState) :
    exploreFromCell gw (fuel + 1) path s =
      if isVisited (coordKey (getCurrentCellFromPath path)) s.visited then some s
      else
        match tryMoveToCell gw (getCurrentCellFromPath path) s.store with
        | (false, st1) =>
          some ⟨st1, markVisited (coordKey (getCurrentCellFromPath path)) s.visited, s.allPaths⟩
        | (true, st1) =>
          match getDiscoverableNeighbors gw
              (logExplorationStep (getCurrentCellFromPath path) path.length st1) with
          | (none, st3) =>
            some ⟨st3, markVisited (coordKey (getCurrentCellFromPath path)) s.visited, s.allPaths⟩
          | (some neighbors, st3) =>
            exploreNeighborsAux gw (exploreFromCell gw fuel) (getCurrentCellFromPath path)
              neighbors path
              ⟨st3, markVisited (coordKey (getCurrentCellFromPath path)) s.visited, s.allPaths⟩ := rfl

theorem calls_moveToCell (gw : Gateway) (pos : CellCoordinates) (s : StoreState) :
    (moveToCell gw pos s).2.calls = s.calls ++ [GCall.move s.moveUrl pos.x pos.y] := by
  unfold moveToCell
  split <;> simp [recordCall, updateFromMove, updateGameState, addLog]

theorem calls_tryMoveToCell (gw : Gateway) (c : CellCoordinates) (s : StoreState) :
    (tryMoveToCell gw c s).2.calls = s.calls ++ [GCall.move s.moveUrl c.x c.y] := by
  unfold tryMoveToCell
  rcases h : moveToCell gw c s with ⟨r, s1⟩
  have hc : s1.calls = s.calls ++ [GCall.move s.moveUrl c.x c.y] := by
    have h2 := calls_moveToCell gw c s
    rw [h] at h2
    exact h2
  cases r <;> simp [addLog, hc]

theorem calls_discoverSurroundings (gw : Gateway) (s : StoreState) :
    (discoverSurroundings gw s).2.calls = s.calls ++ [GCall.discover s.discoverUrl] := by
  unfold discoverSurroundings
  split <;> simp [recordCall, discoverCells, addLog]

theorem calls_getDiscoverableNeighbors (gw : Gateway) (s : StoreState) :
    (getDiscoverableNeighbors gw s).2.calls = s.calls ++ [GCall.discover s.discoverUrl] := by
  unfold getDiscoverableNeighbors
  rcases h : discoverSurroundings gw s with ⟨r, s1⟩
  have hc : s1.calls = s.calls ++ [GCall.discover s.discoverUrl] := by
    have h2 := calls_discoverSurroundings gw s
    rw [h] at h2
    exact h2
  cases r <;> simp [hc]

theorem calls_returnToPrevious (gw : Gateway) (c : CellCoordinates) (s : StoreState) :
    (returnToPrevious gw c s).calls = s.calls ++ [GCall.move s.moveUrl c.x c.y] := by
  unfold returnToPrevious
  rcases h : moveToCell gw c s with ⟨r, s1⟩
  have hc : s1.calls = s.calls ++ [GCall.move s.moveUrl c.x c.y] := by
    have h2 := calls_moveToCell gw c s
    rw [h] at h2
    exact h2
  cases r <;> simp [addLog, hc]

theorem results_moveToCell (gw : Gateway) (pos : CellCoordinates) (s : StoreState) :
    (moveToCell gw pos s).2.results = s.results := by
  unfold moveToCell
  split <;> simp [recordCall, updateFromMove, updateGameState, addLog]

theorem results_tryMoveToCell (gw : Gateway) (c : CellCoordinates) (s : StoreState) :
    (tryMoveToCell gw c s).2.results = s.results := by
  unfold tryMoveToCell
  rcases h : moveToCell gw c s with ⟨r, s1⟩
  have hc : s1.results = s.results := by
    have h2 := results_moveToCell gw c s
    rw [h] at h2
    exact h2
  cases r <;> simp [addLog, hc]

theorem results_discoverSurroundings (gw : Gateway) (s : StoreState) :
    (discoverSurroundings gw s).2.results = s.results := by
  unfold discoverSurroundings
  split <;> simp [recordCall, discoverCells, addLog]

theorem results_getDiscoverableNeighbors (gw : Gateway) (s : StoreState) :
    (getDiscoverableNeighbors gw s).2.results = s.results := by
  unfold getDiscoverableNeighbors
  rcases h : discoverSurroundings gw s with ⟨r, s1⟩
  have hc : s1.results = s.results := by
    have h2 := results_discoverSurroundings gw s
    rw [h] at h2
    exact h2
  cases r <;> simp [hc]

theorem results_returnToPrevious (gw : Gateway) (c : CellCoordinates) (s : StoreState) :
    (returnToPrevious gw c s).results = s.results := by
  unfold returnToPrevious
  rcases h : moveToCell gw c s with ⟨r, s1⟩
  have hc : s1.results = s.results := by
    have h2 := results_moveToCell gw c s
    rw [h] at h2
    exact h2
  cases r <;> simp [addLog, hc]

theorem subset_setAdd (s : List CellCoordinates) (k : CellCoordinates) : s ⊆ setAdd s k := by
  unfold setAdd
  split
  · exact fun a ha => ha
  · exact fun a ha => List.mem_append_left _ ha

theorem mem_setAdd_self (s : List CellCoordinates) (k : CellCoordinates) : k ∈ setAdd s k := by
  unfold setAdd
  split
  · assumption
  · simp

theorem mem_setAdd (s : List CellCoordinates) (k a : CellCoordinates) :
    a ∈ setAdd s k ↔ a ∈ s ∨ a = k := by
  unfold setAdd
  split
  · rename_i h
    constructor
    · exact fun ha => Or.inl ha
    · rintro (ha | rfl)
      · exact ha
      · exact h
  · simp

theorem extends_refl (s : DfsState) : Extends s s :=
  ⟨fun _ h => h, ⟨[], by simp⟩, ⟨[], by simp⟩, rfl⟩

theorem extends_trans {a b c : DfsState} (h1 : Extends a b) (h2 : Extends b c) :
    Extends a c := by
  obtain ⟨v1, ⟨n1, hn1⟩, ⟨c1, hc1⟩, hr1⟩ := h1
  obtain ⟨v2, ⟨n2, hn2⟩, ⟨c2, hc2⟩, hr2⟩ := h2
  exact ⟨fun x hx => v2 (v1 hx), ⟨n1 ++ n2, by simp [hn2, hn1]⟩,
    ⟨c1 ++ c2, by simp [hc2, hc1]⟩, by rw [hr2, hr1]⟩

theorem extends_handleAux (gw : Gateway)
    (explorer : List CellCoordinates → DfsState → Option DfsState)
    (hexp : ∀ p t r, explorer p t = some r → Extends t r)
    (current : CellCoordinates) (cell : Cell) (path : List CellCoordinates)
    (s res : DfsState)
    (h : handleCellExplorationAux gw explorer current cell path s = some res) :
    Extends s res := by
  rw [handleAux_eq] at h
  cases hcan : canExploreCell cell (coordKey (cellCoord cell)) s.visited with
  | false =>
    rw [hcan] at h
    simp only [Bool.not_false, if_true] at h
    cases h
    exact extends_refl _
  | true =>
    rw [hcan] at h
    simp only [Bool.not_true, Bool.false_eq_true, if_false] at h
    cases hgoal : isGoalCell cell with
    | true =>
      rw [hgoal] at h
      simp only [if_true] at h
      cases h
      exact ⟨fun _ hx => hx,
        ⟨[⟨buildNextPath path cell, (buildNextPath path cell).length⟩], rfl⟩,
        ⟨[], by simp [recordExitPath, addLog]⟩, by simp [recordExitPath, addLog]⟩
    | false =>
      rw [hgoal] at h
      simp only [Bool.false_eq_true, if_false] at h
      rcases hrec : explorer (buildNextPath path cell) s with _ | s1
      · rw [hrec] at h
        cases h
      · rw [hrec] at h
        cases h
        have h1 := hexp _ _ _ hrec
        exact extends_trans h1 ⟨fun _ hx => hx, ⟨[], by simp⟩,
          ⟨[GCall.move s1.store.moveUrl current.x current.y],
            calls_returnToPrevious gw current s1.store⟩,
          results_returnToPrevious gw current s1.store⟩

theorem extends_neighborsAux (gw : Gateway)
    (explorer : List CellCoordinates → DfsState → Option DfsState)
    (hexp : ∀ p t r, explorer p t = some r → Extends t r)
    (current : CellCoordinates) :
    ∀ (nbrs : List Cell) (path : List CellCoordinates) (s res : DfsState),
      exploreNeighborsAux gw explorer current nbrs path s = some res → Extends s res := by
  intro nbrs
  induction nbrs with
  | nil =>
    intro path s res h
    cases h
    exact extends_refl _
  | cons cell rest ih =>
    intro path s res h
    unfold exploreNeighborsAux at h
    rcases hh : handleCellExplorationAux gw explorer current cell path s with _ | s1
    · rw [hh] at h
      cases h
    · rw [hh] at h
      exact extends_trans (extends_handleAux gw explorer hexp current cell path s s1 hh)
        (ih path s1 res h)

theorem extends_exploreFromCell (gw : Gateway) :
    ∀ (fuel : Nat) (path : List CellCoordinates) (s res : DfsState),
      exploreFromCell gw fuel path s = some res → Extends s res := by
  intro fuel
  induction fuel with
  | zero =>
    intro path s res h
    cases h
  | succ fuel ih =>
    intro path s res h
    rw [exploreFromCell_succ_eq] at h
    cases hv : isVisited (coordKey (getCurrentCellFromPath path)) s.visited with
    | true =>
      rw [hv] at h
      simp only [if_true] at h
      cases h
      exact extends_refl _
    | false =>
      rw [hv] at h
      simp only [Bool.false_eq_true, if_false] at h
      rcases hm : tryMoveToCell gw (getCurrentCellFromPath path) s.store with ⟨moved, st1⟩
      rw [hm] at h
      have hvis : s.visited ⊆ markVisited (coordKey (getCurrentCellFromPath path)) s.visited :=
        subset_setAdd _ _
      have hcalls1 : st1.calls = s.store.calls ++
          [GCall.move s.store.moveUrl (getCurrentCellFromPath path).x
            (getCurrentCellFromPath path).y] := by
        have h2 := calls_tryMoveToCell gw (getCurrentCellFromPath path) s.store
        rw [hm] at h2
        exact h2
      have hres1 : st1.results = s.store.results := by
        have h2 := results_tryMoveToCell gw (getCurrentCellFromPath path) s.store
        rw [hm] at h2
        exact h2
      cases moved with
      | false =>
        cases h
        exact ⟨hvis, ⟨[], by simp⟩, ⟨_, hcalls1⟩, hres1⟩
      | true =>
        dsimp only at h
        rcases hd : getDiscoverableNeighbors gw
            (logExplorationStep (getCurrentCellFromPath path) path.length st1) with ⟨dres, st3⟩
        rw [hd] at h
        have hcalls3 : st3.calls = st1.calls ++
            [GCall.discover (logExplorationStep (getCurrentCellFromPath path)
              path.length st1).discoverUrl] := by
          have h2 := calls_getDiscoverableNeighbors gw
            (logExplorationStep (getCurrentCellFromPath path) path.length st1)
          rw [hd] at h2
          exact h2
        have hres3 : st3.results = st1.results := by
          have h2 := results_getDiscoverableNeighbors gw
            (logExplorationStep (getCurrentCellFromPath path) path.length st1)
          rw [hd] at h2
          simpa [logExplorationStep, addLog] using h2
        cases dres with
        | none =>
          cases h
          refine ⟨hvis, ⟨[], by simp⟩,
            ⟨[GCall.move s.store.moveUrl (getCurrentCellFromPath path).x
                (getCurrentCellFromPath path).y,
              GCall.discover (logExplorationStep (getCurrentCellFromPath path)
                path.length st1).discoverUrl], ?_⟩, by rw [hres3, hres1]⟩
          rw [hcalls3, hcalls1]
          simp
        | some neighbors =>
          have hstep := extends_neighborsAux gw (exploreFromCell gw fuel)
            (fun p t r hh => ih p t r hh) (getCurrentCellFromPath path) neighbors path _ res h
          obtain ⟨v2, ⟨n2, hn2⟩, ⟨c2, hc2⟩, hr2⟩ := hstep
          refine ⟨fun a ha => v2 (hvis ha), ⟨n2, hn2⟩,
            ⟨[GCall.move s.store.moveUrl (getCurrentCellFromPath path).x
                (getCurrentCellFromPath path).y,
              GCall.discover (logExplorationStep (getCurrentCellFromPath path)
                path.length st1).discoverUrl] ++ c2, ?_⟩, by rw [hr2, hres3, hres1]⟩
          rw [hc2, hcalls3, hcalls1]
          simp

theorem nodup_snoc (l : List CellCoordinates) (c : CellCoordinates)
    (h1 : l.Nodup) (h2 : c ∉ l) : (l ++ [c]).Nodup := by
  rw [List.nodup_append]
  refine ⟨h1, List.nodup_singleton c, ?_⟩
  intro x hx hy
  simp only [List.mem_singleton] at hy
  subst hy
  exact h2 hx

theorem current_eq_getLast (path : List CellCoordinates) (h : path ≠ []) :
    getCurrentCellFromPath path = path.getLast h := by
  unfold getCurrentCellFromPath
  rw [List.getLastD_eq_getLast?, List.getLast?_eq_getLast _ h]
  rfl

theorem current_mem (path : List CellCoordinates) (h : path ≠ []) :
    getCurrentCellFromPath path ∈ path := by
  rw [current_eq_getLast path h]
  exact List.getLast_mem h

theorem mem_dropLast_or_current (path : List CellCoordinates) (q : CellCoordinates)
    (h : path ≠ []) (hq : q ∈ path) :
    q ∈ path.dropLast ∨ q = getCurrentCellFromPath path := by
  have hd := List.dropLast_append_getLast h
  rw [← hd] at hq
  rcases List.mem_append.1 hq with h1 | h1
  · exact Or.inl h1
  · right
    simp only [List.mem_singleton] at h1
    rw [h1, current_eq_getLast path h]

theorem canExploreCell_spec (cell : Cell) (key : CellCoordinates)
    (visited : List CellCoordinates) (h : canExploreCell cell key visited = true) :
    key ∉ visited ∧ cell.move = true ∧ cell.value ≠ CELL_TYPE.trap := by
  unfold canExploreCell at h
  simp at h
  exact ⟨h.1.1, h.1.2, h.2⟩

theorem recordedA_handleAux (gw : Gateway)
    (explorer : List CellCoordinates → DfsState → Option DfsState)
    (hexp : ∀ p t r, explorer p t = some r → p ≠ [] → p.Nodup →
      (∀ q ∈ p.dropLast, q ∈ t.visited) →
      ∀ pc ∈ r.allPaths, pc ∈ t.allPaths ∨
        (pc.path ≠ [] ∧ pc.path.head? = p.head? ∧ pc.path.Nodup))
    (current : CellCoordinates) (cell : Cell) (path : List CellCoordinates)
    (s res : DfsState)
    (h : handleCellExplorationAux gw explorer current cell path s = some res)
    (hne : path ≠ []) (hnd : path.Nodup) (hvis : ∀ q ∈ path, q ∈ s.visited) :
    ∀ pc ∈ res.allPaths, pc ∈ s.allPaths ∨
      (pc.path ≠ [] ∧ pc.path.head? = path.head? ∧ pc.path.Nodup) := by
  rw [handleAux_eq] at h
  cases hcan : canExploreCell cell (coordKey (cellCoord cell)) s.visited with
  | false =>
    rw [hcan] at h
    simp only [Bool.not_false, if_true] at h
    cases h
    exact fun pc hm => Or.inl hm
  | true =>
    obtain ⟨hnotv, hmv, hnt⟩ := canExploreCell_spec _ _ _ hcan
    have hccnp : (⟨cell.x, cell.y⟩ : CellCoordinates) ∉ path := fun hmem => hnotv (hvis _ hmem)
    rw [hcan] at h
    simp only [Bool.not_true, Bool.false_eq_true, if_false] at h
    have hnodnext : (buildNextPath path cell).Nodup := by
      unfold buildNextPath
      exact nodup_snoc path ⟨cell.x, cell.y⟩ hnd hccnp
    have hnenext : buildNextPath path cell ≠ [] := by
      unfold buildNextPath
      simp
    have hheadnext : (buildNextPath path cell).head? = path.head? := by
      unfold buildNextPath
      exact List.head?_append_of_ne_nil path hne
    cases hgoal : isGoalCell cell with
    | true =>
      rw [hgoal] at h
      simp only [if_true] at h
      cases h
      intro pc hm
      simp only [recordExitPath] at hm
      rcases List.mem_append.1 hm with h1 | h1
      · exact Or.inl h1
      · simp only [List.mem_singleton] at h1
        subst h1
        exact Or.inr ⟨hnenext, hheadnext, hnodnext⟩
    | false =>
      rw [hgoal] at h
      simp only [Bool.false_eq_true, if_false] at h
      rcases hrec : explorer (buildNextPath path cell) s with _ | s1
      · rw [hrec] at h
        cases h
      · rw [hrec] at h
        cases h
        intro pc hm
        have hdl : (buildNextPath path cell).dropLast = path := by
          unfold buildNextPath
          exact List.dropLast_concat
        have hstep := hexp _ _ _ hrec hnenext hnodnext (by rw [hdl]; exact hvis)
        rcases hstep pc hm with h1 | ⟨a, b, c⟩
        · exact Or.inl h1
        · exact Or.inr ⟨a, by rw [b, hheadnext], c⟩

theorem recordedA_neighborsAux (gw : Gateway)
    (explorer : List CellCoordinates → DfsState → Option DfsState)
    (hext : ∀ p t r, explorer p t = some r → Extends t r)
    (hexp : ∀ p t r, explorer p t = some r → p ≠ [] → p.Nodup →
      (∀ q ∈ p.dropLast, q ∈ t.visited) →
      ∀ pc ∈ r.allPaths, pc ∈ t.allPaths ∨
        (pc.path ≠ [] ∧ pc.path.head? = p.head? ∧ pc.path.Nodup))
    (current : CellCoordinates) :
    ∀ (nbrs : List Cell) (path : List CellCoordinates) (s res : DfsState),
      exploreNeighborsAux gw explorer current nbrs path s = some res →
      path ≠ [] → path.Nodup → (∀ q ∈ path, q ∈ s.visited) →
      ∀ pc ∈ res.allPaths, pc ∈ s.allPaths ∨
        (pc.path ≠ [] ∧ pc.path.head? = path.head? ∧ pc.path.Nodup) := by
  intro nbrs
  induction nbrs with
  | nil =>
    intro path s res h hne hnd hvis
    cases h
    exact fun pc hm => Or.inl hm
  | cons cell rest ih =>
    intro path s res h hne hnd hvis
    unfold exploreNeighborsAux at h
    rcases hh : handleCellExplorationAux gw explorer current cell path s with _ | s1
    · rw [hh] at h
      cases h
    · rw [hh] at h
      have hvis1 : ∀ q ∈ path, q ∈ s1.visited := fun q hq =>
        (extends_handleAux gw explorer hext current cell path s s1 hh).1 (hvis q hq)
      intro pc hm
      rcases ih path s1 res h hne hnd hvis1 pc hm with h1 | hgood
      · exact recordedA_handleAux gw explorer hexp current cell path s s1 hh hne hnd hvis pc h1
      · exact Or.inr hgood

theorem recordedA_exploreFromCell (gw : Gateway) :
    ∀ (fuel : Nat) (path : List CellCoordinates) (s res : DfsState),
      exploreFromCell gw fuel path s = some res →
      path ≠ [] → path.Nodup → (∀ q ∈ path.dropLast, q ∈ s.visited) →
      ∀ pc ∈ res.allPaths, pc ∈ s.allPaths ∨
        (pc.path ≠ [] ∧ pc.path.head? = path.head? ∧ pc.path.Nodup) := by
  intro fuel
  induction fuel with
  | zero =>
    intro path s res h
    cases h
  | succ fuel ih =>
    intro path s res h hne hnd hvis
    rw [exploreFromCell_succ_eq] at h
    cases hv : isVisited (coordKey (getCurrentCellFromPath path)) s.visited with
    | true =>
      rw [hv] at h
      simp only [if_true] at h
      cases h
      exact fun pc hm => Or.inl hm
    | false =>
      rw [hv] at h
      simp only [Bool.false_eq_true, if_false] at h
      have hvisall : ∀ q ∈ path,
          q ∈ markVisited (coordKey (getCurrentCellFromPath path)) s.visited := by
        intro q hq
        rcases mem_dropLast_or_current path q hne hq with h1 | h1
        · exact subset_setAdd _ _ (hvis q h1)
        · rw [h1]
          exact mem_setAdd_self _ _
      rcases hm : tryMoveToCell gw (getCurrentCellFromPath path) s.store with ⟨moved, st1⟩
      rw [hm] at h
      cases moved with
      | false =>
        cases h
        exact fun pc hmm => Or.inl hmm
      | true =>
        dsimp only at h
        rcases hd : getDiscoverableNeighbors gw
            (logExplorationStep (getCurrentCellFromPath path) path.length st1) with ⟨dres, st3⟩
        rw [hd] at h
        cases dres with
        | none =>
          cases h
          exact fun pc hmm => Or.inl hmm
        | some neighbors =>
          exact recordedA_neighborsAux gw (exploreFromCell gw fuel)
            (fun p t r hh => extends_exploreFromCell gw fuel p t r hh)
            (fun p t r hh => ih p t r hh)
            (getCurrentCellFromPath path) neighbors path
            ⟨st3, markVisited (coordKey (getCurrentCellFromPath path)) s.visited, s.allPaths⟩
            res h hne hnd hvisall

theorem isGoalCell_true_iff (cell : Cell) :
    isGoalCell cell = true ↔ cell.value = CELL_TYPE.stop := by
  unfold isGoalCell
  simp

theorem discover_ok_of_getNeighbors (gw : Gateway) (s : StoreState) (cells : List Cell)
    (s' : StoreState) (h : getDiscoverableNeighbors gw s = (some cells, s')) :
    gw.discover s.discoverUrl = Except.ok cells := by
  unfold getDiscoverableNeighbors discoverSurroundings at h
  rcases hg : gw.discover s.discoverUrl with e | cs
  · rw [hg] at h
    simp at h
  · rw [hg] at h
    dsimp only at h
    injection h with h1 h2
    injection h1 with h1
    exact congrArg Except.ok h1

theorem recordedB_handleAux (gw : Gateway) (cellAt : CellCoordinates → Option Cell)
    (explorer : List CellCoordinates → DfsState → Option DfsState)
    (hexp : ∀ p t r, explorer p t = some r → (∀ q ∈ p, SafeCoord cellAt q) →
      ∀ pc ∈ r.allPaths, pc ∈ t.allPaths ∨ SafeExitShape cellAt pc)
    (current : CellCoordinates) (cell : Cell) (path : List CellCoordinates)
    (s res : DfsState)
    (h : handleCellExplorationAux gw explorer current cell path s = some res)
    (hcell : cellAt (cellCoord cell) = some cell)
    (hpath : ∀ q ∈ path, SafeCoord cellAt q) :
    ∀ pc ∈ res.allPaths, pc ∈ s.allPaths ∨ SafeExitShape cellAt pc := by
  rw [handleAux_eq] at h
  cases hcan : canExploreCell cell (coordKey (cellCoord cell)) s.visited with
  | false =>
    rw [hcan] at h
    simp only [Bool.not_false, if_true] at h
    cases h
    exact fun pc hm => Or.inl hm
  | true =>
    obtain ⟨hnotv, hmv, hnt⟩ := canExploreCell_spec _ _ _ hcan
    rw [hcan] at h
    simp only [Bool.not_true, Bool.false_eq_true, if_false] at h
    cases hgoal : isGoalCell cell with
    | true =>
      have hstop : cell.value = CELL_TYPE.stop := (isGoalCell_true_iff cell).1 hgoal
      rw [hgoal] at h
      simp only [if_true] at h
      cases h
      intro pc hm
      simp only [recordExitPath] at hm
      rcases List.mem_append.1 hm with h1 | h1
      · exact Or.inl h1
      · simp only [List.mem_singleton] at h1
        subst h1
        refine Or.inr ⟨⟨cell, ?_, hstop⟩, ?_⟩
        · unfold buildNextPath
          rw [List.getLastD_concat]
          exact hcell
        · unfold buildNextPath
          rw [List.dropLast_concat]
          exact hpath
    | false =>
      have hnstop : cell.value ≠ CELL_TYPE.stop := fun hc =>
        by rw [(isGoalCell_true_iff cell).2 hc] at hgoal; cases hgoal
      rw [hgoal] at h
      simp only [Bool.false_eq_true, if_false] at h
      rcases hrec : explorer (buildNextPath path cell) s with _ | s1
      · rw [hrec] at h
        cases h
      · rw [hrec] at h
        cases h
        intro pc hm
        have hsafe : ∀ q ∈ buildNextPath path cell, SafeCoord cellAt q := by
          intro q hq
          unfold buildNextPath at hq
          rcases List.mem_append.1 hq with h1 | h1
          · exact hpath q h1
          · simp only [List.mem_singleton] at h1
            subst h1
            intro c hc
            rw [show (⟨cell.x, cell.y⟩ : CellCoordinates) = cellCoord cell from rfl, hcell] at hc
            injection hc with hc
            subst hc
            exact ⟨hnt, hnstop⟩
        exact hexp _ _ _ hrec hsafe pc hm

theorem recordedB_neighborsAux (gw : Gateway) (cellAt : CellCoordinates → Option Cell)
    (explorer : List CellCoordinates → DfsState → Option DfsState)
    (hexp : ∀ p t r, explorer p t = some r → (∀ q ∈ p, SafeCoord cellAt q) →
      ∀ pc ∈ r.allPaths, pc ∈ t.allPaths ∨ SafeExitShape cellAt pc)
    (current : CellCoordinates) :
    ∀ (nbrs : List Cell) (path : List CellCoordinates) (s res : DfsState),
      exploreNeighborsAux gw explorer current nbrs path s = some res →
      (∀ c ∈ nbrs, cellAt (cellCoord c) = some c) →
      (∀ q ∈ path, SafeCoord cellAt q) →
      ∀ pc ∈ res.allPaths, pc ∈ s.allPaths ∨ SafeExitShape cellAt pc := by
  intro nbrs
  induction nbrs with
  | nil =>
    intro path s res h _ _
    cases h
    exact fun pc hm => Or.inl hm
  | cons cell rest ih =>
    intro path s res h hnbrs hpath
    unfold exploreNeighborsAux at h
    rcases hh : handleCellExplorationAux gw explorer current cell path s with _ | s1
    · rw [hh] at h
      cases h
    · rw [hh] at h
      intro pc hm
      rcases ih path s1 res h (fun c hc => hnbrs c (List.mem_cons_of_mem _ hc)) hpath pc hm
        with h1 | hgood
      · exact recordedB_handleAux gw cellAt explorer hexp current cell path s s1 hh
          (hnbrs cell (List.mem_cons_self cell rest)) hpath pc h1
      · exact Or.inr hgood

theorem recordedB_exploreFromCell (gw : Gateway) (cellAt : CellCoordinates → Option Cell)
    (hcons : Consistent gw cellAt) :
    ∀ (fuel : Nat) (path : List CellCoordinates) (s res : DfsState),
      exploreFromCell gw fuel path s = some res →
      (∀ q ∈ path, SafeCoord cellAt q) →
      ∀ pc ∈ res.allPaths, pc ∈ s.allPaths ∨ SafeExitShape cellAt pc := by
  intro fuel
  induction fuel with
  | zero =>
    intro path s res h
    cases h
  | succ fuel ih =>
    intro path s res h hpath
    rw [exploreFromCell_succ_eq] at h
    cases hv : isVisited (coordKey (getCurrentCellFromPath path)) s.visited with
    | true =>
      rw [hv] at h
      simp only [if_true] at h
      cases h
      exact fun pc hm => Or.inl hm
    | false =>
      rw [hv] at h
      simp only [Bool.false_eq_true, if_false] at h
      rcases hm : tryMoveToCell gw (getCurrentCellFromPath path) s.store with ⟨moved, st1⟩
      rw [hm] at h
      cases moved with
      | false =>
        cases h
        exact fun pc hmm => Or.inl hmm
      | true =>
        dsimp only at h
        rcases hd : getDiscoverableNeighbors gw
            (logExplorationStep (getCurrentCellFromPath path) path.length st1) with ⟨dres, st3⟩
        rw [hd] at h
        cases dres with
        | none =>
          cases h
          exact fun pc hmm => Or.inl hmm
        | some neighbors =>
          have hnbrs : ∀ c ∈ neighbors, cellAt (cellCoord c) = some c :=
            hcons _ neighbors (discover_ok_of_getNeighbors gw _ neighbors st3 hd)
          exact recordedB_neighborsAux gw cellAt (exploreFromCell gw fuel)
            (fun p t r hh => ih p t r hh)
            (getCurrentCellFromPath path) neighbors path
            ⟨st3, markVisited (coordKey (getCurrentCellFromPath path)) s.visited, s.allPaths⟩
            res h hnbrs hpath

theorem insertByLength_perm (a : PathCandidate) (l : List PathCandidate) :
    (insertByLength a l).Perm (a :: l) := by
  induction l with
  | nil => exact List.Perm.refl _
  | cons b rest ih =>
    unfold insertByLength
    split
    · exact (ih.cons b).trans (List.Perm.swap a b rest)
    · exact List.Perm.refl _

theorem sortByLength_perm (l : List PathCandidate) : (sortByLength l).Perm l := by
  suffices h : ∀ (l acc : List PathCandidate),
      (l.foldl (fun acc a => insertByLength a acc) acc).Perm (acc ++ l) by
    simpa using h l []
  intro l
  induction l with
  | nil =>
    intro acc
    simp
  | cons a rest ih =>
    intro acc
    exact (ih (insertByLength a acc)).trans
      (((insertByLength_perm a acc).append_right rest).trans List.perm_middle.symm)

theorem mem_sortByLength (pc : PathCandidate) (l : List PathCandidate) :
    pc ∈ sortByLength l ↔ pc ∈ l :=
  (sortByLength_perm l).mem_iff

theorem pairwise_insertByLength (a : PathCandidate) (l : List PathCandidate)
    (h : l.Pairwise (fun x y => x.length ≤ y.length)) :
    (insertByLength a l).Pairwise (fun x y => x.length ≤ y.length) := by
  induction l with
  | nil =>
    simp [insertByLength]
  | cons b rest ih =>
    rw [List.pairwise_cons] at h
    unfold insertByLength
    split
    · rename_i hle
      simp only [lengthLe, decide_eq_true_eq] at hle
      rw [List.pairwise_cons]
      refine ⟨?_, ih h.2⟩
      intro x hx
      rcases List.mem_cons.1 ((insertByLength_perm a rest).mem_iff.1 hx) with hxx | hxx
      · rw [hxx]
        exact hle
      · exact h.1 x hxx
    · rename_i hle
      simp only [lengthLe, decide_eq_true_eq] at hle
      have hab : a.length ≤ b.length := le_of_lt (lt_of_not_le hle)
      rw [List.pairwise_cons]
      refine ⟨?_, List.pairwise_cons.2 ⟨h.1, h.2⟩⟩
      intro x hx
      rcases List.mem_cons.1 hx with hxx | hxx
      · rw [hxx]
        exact hab
      · exact le_trans hab (h.1 x hxx)

theorem pairwise_sortByLength (l : List PathCandidate) :
    (sortByLength l).Pairwise (fun x y => x.length ≤ y.length) := by
  suffices h : ∀ (l acc : List PathCandidate),
      acc.Pairwise (fun x y => x.length ≤ y.length) →
      (l.foldl (fun acc a => insertByLength a acc) acc).Pairwise
        (fun x y => x.length ≤ y.length) by
    exact h l [] (by simp)
  intro l
  induction l with
  | nil =>
    intro acc h
    exact h
  | cons a rest ih =>
    intro acc h
    exact ih _ (pairwise_insertByLength a acc h)

theorem startExploration_elim (gw : Gateway) (fuel : Nat) (start : CellCoordinates)
    (store : StoreState) (ap : List PathCandidate) (st1 : StoreState)
    (h : startExploration gw fuel start store = some (ap, st1)) :
    ∃ resS : DfsState, exploreFromCell gw fuel [start] ⟨store, [], []⟩ = some resS ∧
      ap = resS.allPaths ∧ st1 = resS.store := by
  unfold startExploration at h
  rcases he : exploreFromCell gw fuel [start] ⟨store, [], []⟩ with _ | resS
  · rw [he] at h
    cases h
  · rw [he] at h
    dsimp only at h
    injection h with h1
    rw [Prod.ext_iff] at h1
    exact ⟨resS, rfl, h1.1.symm, h1.2.symm⟩

theorem calls_addLog (e : String) (s : StoreState) : (addLog e s).calls = s.calls := rfl

theorem calls_foldl_log :
    ∀ (l : List (Nat × PathCandidate)) (s : StoreState),
      (l.foldl (fun st p => addLog ("Chemin " ++ toString (p.1 + 1) ++ " : "
        ++ toString p.2.length ++ " cases.") st) s).calls = s.calls := by
  intro l
  induction l with
  | nil =>
    intro s
    rfl
  | cons a rest ih =>
    intro s
    rw [List.foldl_cons, ih, calls_addLog]

theorem calls_logPaths (ap : List PathCandidate) (s : StoreState) :
    (logPaths ap s).2.calls = s.calls := by
  unfold logPaths
  dsimp only
  rw [calls_addLog, calls_foldl_log, calls_addLog]

theorem explore_results_cases (gw : Gateway) (fuel : Nat) (store st' : StoreState)
    (hrun : explore gw fuel store = some st') :
    ∃ ap st1, startExploration gw fuel store.position store = some (ap, st1) ∧
      st1.results = store.results ∧ st'.calls = st1.calls ∧
      ((ap = [] ∧ st' = addLog ("Aucun chemin vers la sortie trouvé.") st1) ∨
        st'.results = sortByLength ap) := by
  unfold explore at hrun
  dsimp only at hrun
  rcases hs : startExploration gw fuel store.position store with _ | pr
  · rw [hs] at hrun
    cases hrun
  · rcases pr with ⟨ap, st1⟩
    rw [hs] at hrun
    dsimp only at hrun
    obtain ⟨resS, he, hap, hst⟩ := startExploration_elim gw fuel store.position store ap st1 hs
    have hres : st1.results = store.results := by
      have hE := extends_exploreFromCell gw fuel [store.position] ⟨store, [], []⟩ resS he
      rw [hst]
      exact hE.2.2.2
    by_cases hlen : ap.length = 0
    · rw [if_pos hlen] at hrun
      cases hrun
      exact ⟨ap, st1, rfl, hres, rfl, Or.inl ⟨List.length_eq_zero.1 hlen, rfl⟩⟩
    · rw [if_neg hlen] at hrun
      rcases hlp : logPaths ap st1 with ⟨sorted, store2⟩
      rw [hlp] at hrun
      dsimp only at hrun
      cases hrun
      have hsorted : sorted = sortByLength ap := by
        have hfst : (logPaths ap st1).1 = sortByLength ap := rfl
        rw [hlp] at hfst
        exact hfst
      have hc2 : store2.calls = st1.calls := by
        have hcl := calls_logPaths ap st1
        rw [hlp] at hcl
        exact hcl
      exact ⟨ap, st1, rfl, hres, hc2, Or.inr (by simp [hsorted])⟩

theorem neighborsAux_cons (gw : Gateway)
    (explorer : List CellCoordinates → DfsState → Option DfsState)
    (current : CellCoordinates) (cell : Cell) (rest : List Cell)
    (path : List CellCoordinates) (s : DfsState) :
    exploreNeighborsAux gw explorer current (cell :: rest) path s =
      match handleCellExplorationAux gw explorer current cell path s with
      | none => none
      | some s1 => exploreNeighborsAux gw explorer current rest path s1 := rfl

/-- Claim C1 (amended): a completed `explore()` run records into `results`
only walks that start at the start cell and never revisit a coordinate;
because the DFS shares a single visited set across branches, a coordinate
is expanded at most once per run, so not every safe exit walk is recorded
(see `c1_counterexample`): when the same exit is reachable by two routes
with distinct coordinate sequences, a route whose intermediate coordinates
were already visited along another branch is skipped. -/
theorem c1_amended_recorded_paths (gw : Gateway) (fuel : Nat) (store st' : StoreState)
    (h0 : store.results = []) (hrun : explore gw fuel store = some st') :
    ∀ pc ∈ st'.results,
      pc.path ≠ [] ∧ pc.path.head? = some store.position ∧ pc.path.Nodup := by
  obtain ⟨ap, st1, hs, hres, hceq, hcase⟩ := explore_results_cases gw fuel store st' hrun
  obtain ⟨resS, he, hap, hst⟩ := startExploration_elim gw fuel store.position store ap st1 hs
  have hrec := recordedA_exploreFromCell gw fuel [store.position] ⟨store, [], []⟩ resS he
    (by simp) (List.nodup_singleton _) (by simp)
  intro pc hm
  rcases hcase with ⟨hap0, hst'⟩ | hst'
  · rw [hst'] at hm
    simp only [addLog] at hm
    rw [hres, h0] at hm
    cases hm
  · rw [hst'] at hm
    have hm2 : pc ∈ ap := (mem_sortByLength pc ap).1 hm
    rw [hap] at hm2
    rcases hrec pc hm2 with h1 | hgood
    · cases h1
    · exact ⟨hgood.1, by rw [hgood.2.1]; rfl, hgood.2.2⟩

/-- Witness for the amended C1: the recorded path of the C1 maze run is a
nonempty, non-revisiting walk starting at the start cell. -/
theorem c1_amended_recorded_paths_witness :
    prA.path ≠ [] ∧ prA.path.head? = some storeC1.position ∧ prA.path.Nodup :=
  c1_amended_recorded_paths gwC1 100 storeC1 stC1 rfl rfl prA (by decide)

theorem gwC1_consistent : Consistent gwC1 cellAtC1 := by
  intro url cells hc
  unfold gwC1 gwOfMaze at hc
  dsimp only at hc
  rcases hf : coordsC1.find? (fun p => decide (urlOf p = url)) with _ | p
  · rw [hf] at hc
    cases hc
  · rw [hf] at hc
    injection hc with hc
    have hp : p ∈ coordsC1 := List.mem_of_find?_eq_some hf
    have hall : ∀ c ∈ nbrsC1 p, cellAtC1 (cellCoord c) = some c := by
      simp only [coordsC1, List.mem_cons, List.not_mem_nil, or_false] at hp
      rcases hp with rfl | rfl | rfl | rfl <;> decide
    rw [← hc]
    exact hall

/-- Claim C2: for a discover-consistent gateway whose start coordinate is
safe, every path recorded into `results` by a completed `explore()` run has
no repeated coordinate, is nonempty, its last coordinate carries the `stop`
cell, and no earlier coordinate carries a `trap` (or another `stop`) — so
the final exit is the only `stop` of the sequence. -/
theorem c2_recorded_paths_safe (gw : Gateway) (cellAt : CellCoordinates → Option Cell)
    (fuel : Nat) (store st' : StoreState)
    (hcons : Consistent gw cellAt) (h0 : store.results = [])
    (hrun : explore gw fuel store = some st')
    (hstart : SafeCoord cellAt store.position) :
    ∀ pc ∈ st'.results, pc.path.Nodup ∧ pc.path ≠ [] ∧ SafeExitShape cellAt pc := by
  obtain ⟨ap, st1, hs, hres, hceq, hcase⟩ := explore_results_cases gw fuel store st' hrun
  obtain ⟨resS, he, hap, hst⟩ := startExploration_elim gw fuel store.position store ap st1 hs
  have hrecA := recordedA_exploreFromCell gw fuel [store.position] ⟨store, [], []⟩ resS he
    (by simp) (List.nodup_singleton _) (by simp)
  have hrecB := recordedB_exploreFromCell gw cellAt hcons fuel [store.position]
    ⟨store, [], []⟩ resS he (by intro q hq; simp at hq; rw [hq]; exact hstart)
  intro pc hm
  rcases hcase with ⟨hap0, hst'⟩ | hst'
  · rw [hst'] at hm
    simp only [addLog] at hm
    rw [hres, h0] at hm
    cases hm
  · rw [hst'] at hm
    have hm2 : pc ∈ ap := (mem_sortByLength pc ap).1 hm
    rw [hap] at hm2
    rcases hrecA pc hm2 with h1 | hgoodA
    · cases h1
    · rcases hrecB pc hm2 with h1 | hgoodB
      · cases h1
      · exact ⟨hgoodA.2.2, hgoodA.1, hgoodB⟩

/-- Witness for C2 at the C1 maze run and its recorded path. -/
theorem c2_recorded_paths_safe_witness :
    prA.path.Nodup ∧ prA.path ≠ [] ∧ SafeExitShape cellAtC1 prA :=
  c2_recorded_paths_safe gwC1 cellAtC1 100 storeC1 stC1 gwC1_consistent rfl rfl
    (by intro c hc
        injection hc with h
        subst h
        decide)
    prA (by decide)

/-- Claim C3: gateway failures never escape `explore`.  (i) Paths already
in `allPaths` survive any DFS frame, whatever the gateway answers.
(ii) After a handled branch the neighbor loop always continues with the
remaining siblings.  (iii) A frame whose forward move the gateway rejects
is abandoned with a `some` state and records no path — the failure is
contained.  (iv) Every path collected by a completed run is published into
the final `results`. -/
theorem c3_failure_containment :
    (∀ (gw : Gateway) (fuel : Nat) (path : List CellCoordinates) (s res : DfsState),
        exploreFromCell gw fuel path s = some res →
        ∀ pc ∈ s.allPaths, pc ∈ res.allPaths) ∧
    (∀ (gw : Gateway) (fuel : Nat) (current : CellCoordinates) (cell : Cell)
        (rest : List Cell) (path : List CellCoordinates) (s s1 : DfsState),
        handleCellExploration gw fuel current cell path s = some s1 →
        exploreNeighbors gw fuel current (cell :: rest) path s =
          exploreNeighbors gw fuel current rest path s1) ∧
    (∀ (gw : Gateway) (fuel : Nat) (current : CellCoordinates) (cell : Cell)
        (path : List CellCoordinates) (s : DfsState) (err : String),
        gw.move s.store.moveUrl cell.x cell.y = Except.error err →
        cell.value ≠ CELL_TYPE.stop →
        ∃ s1, handleCellExploration gw (fuel + 1) current cell path s = some s1 ∧
          s1.allPaths = s.allPaths) ∧
    (∀ (gw : Gateway) (fuel : Nat) (store : StoreState) (ap : List PathCandidate)
        (st1 st' : StoreState),
        startExploration gw fuel store.position store = some (ap, st1) →
        explore gw fuel store = some st' →
        ∀ pc ∈ ap, pc ∈ st'.results) := by
  refine ⟨?_, ?_, ?_, ?_⟩
  · intro gw fuel path s res h pc hm
    obtain ⟨_, ⟨new, hnew⟩, _, _⟩ := extends_exploreFromCell gw fuel path s res h
    rw [hnew]
    exact List.mem_append_left _ hm
  · intro gw fuel current cell rest path s s1 h
    unfold handleCellExploration at h
    unfold exploreNeighbors
    rw [neighborsAux_cons, h]
  · intro gw fuel current cell path s err hmv hnstop
    unfold handleCellExploration
    rw [handleAux_eq]
    cases hcan : canExploreCell cell (coordKey (cellCoord cell)) s.visited with
    | false =>
      refine ⟨s, ?_, rfl⟩
      simp
    | true =>
      have hgoal : isGoalCell cell = false := by
        cases hg : isGoalCell cell
        · rfl
        · exact absurd ((isGoalCell_true_iff cell).1 hg) hnstop
      simp only [hgoal, Bool.not_true, Bool.false_eq_true, if_false]
      obtain ⟨hnotv, _, _⟩ := canExploreCell_spec _ _ _ hcan
      have hframe : ∃ t, exploreFromCell gw (fuel + 1) (buildNextPath path cell) s = some t ∧
          t.allPaths = s.allPaths := by
        rw [exploreFromCell_succ_eq]
        have hcur : getCurrentCellFromPath (buildNextPath path cell) =
            (⟨cell.x, cell.y⟩ : CellCoordinates) := by
          unfold buildNextPath getCurrentCellFromPath
          exact List.getLastD_concat _ _ _
        rw [hcur]
        have hnv : isVisited (coordKey (⟨cell.x, cell.y⟩ : CellCoordinates)) s.visited
            = false := by
          unfold isVisited coordKey
          simpa using hnotv
        rw [hnv]
        simp only [Bool.false_eq_true, if_false]
        have hmt : tryMoveToCell gw (⟨cell.x, cell.y⟩ : CellCoordinates) s.store =
            (false,
              addLog ("Erreur déplacement vers (" ++ toString cell.x ++ ", "
                ++ toString cell.y ++ ") : " ++ err)
                (addLog ("Erreur lors du move vers (" ++ toString cell.x ++ ", "
                  ++ toString cell.y ++ ") : " ++ err)
                  (recordCall (GCall.move s.store.moveUrl cell.x cell.y) s.store))) := by
          unfold tryMoveToCell moveToCell
          dsimp only
          rw [hmv]
        rw [hmt]
        exact ⟨_, rfl, rfl⟩
      obtain ⟨t, ht, hta⟩ := hframe
      rw [ht]
      exact ⟨_, rfl, hta⟩
  · intro gw fuel store ap st1 st' hs hrun pc hm
    obtain ⟨ap2, st12, hs2, hres2, hceq2, hcase⟩ := explore_results_cases gw fuel store st' hrun
    rw [hs] at hs2
    simp only [Option.some.injEq, Prod.mk.injEq] at hs2
    rcases hcase with ⟨hap0, hst'⟩ | hst'
    · rw [hs2.1, hap0] at hm
      cases hm
    · rw [hst', ← hs2.1]
      exact (mem_sortByLength pc ap).2 hm

theorem headD_min_of_pairwise (l : List PathCandidate)
    (hp : l.Pairwise (fun a b => a.length ≤ b.length)) :
    ∀ pc ∈ l, (l.headD default).length ≤ pc.length := by
  cases l with
  | nil =>
    intro pc hm
    cases hm
  | cons hd tl =>
    intro pc hm
    rcases List.mem_cons.1 hm with rfl | hmm2
    · simp
    · simp only [List.headD_cons]
      exact (List.pairwise_cons.1 hp).1 pc hmm2

/-- Claim C4: after an `explore()` call that found at least one path (the
`results` signal went from empty to nonempty), `results` is sorted
ascending by recorded length, and `results[0]` has minimal length.  (The
TS code publishes the `allPaths` array into the signal and then
`logPaths` sorts that very array in place, so the published value is the
sorted one.) -/
theorem c4_results_sorted (gw : Gateway) (fuel : Nat) (store st' : StoreState)
    (h0 : store.results = []) (hrun : explore gw fuel store = some st')
    (hne : st'.results ≠ []) :
    st'.results.Pairwise (fun a b => a.length ≤ b.length) ∧
      ∀ pc ∈ st'.results, (st'.results.headD default).length ≤ pc.length := by
  obtain ⟨ap, st1, hs, hres, hceq, hcase⟩ := explore_results_cases gw fuel store st' hrun
  have hsorted : st'.results = sortByLength ap := by
    rcases hcase with ⟨hap0, hst'⟩ | hst'
    · exfalso
      apply hne
      rw [hst']
      simp only [addLog]
      rw [hres, h0]
    · exact hst'
  have hp : st'.results.Pairwise (fun a b => a.length ≤ b.length) := by
    rw [hsorted]
    exact pairwise_sortByLength ap
  exact ⟨hp, headD_min_of_pairwise st'.results hp⟩

/-- Witness for C4 at the C4 maze: the run records paths of lengths 3 and
2 in that order, and the published results are sorted with the length-2
path first. -/
theorem c4_results_sorted_witness :
    stC4.results.Pairwise (fun a b => a.length ≤ b.length) ∧
      (stC4.results.headD default).length ≤ pr3.length :=
  ⟨(c4_results_sorted gwC4 100 storeC1 stC4 rfl rfl (by decide)).1,
    (c4_results_sorted gwC4 100 storeC1 stC4 rfl rfl (by decide)).2 pr3 (by decide)⟩

/-- Witness for C3: a pre-seeded path survives the complete C1 run; the
neighbor loop steps over the handled exit cell; with the network down a
frame is abandoned with `some` and no new paths; and the C4 run's
collected paths all reach the published results. -/
theorem c3_failure_containment_witness :
    prB ∈ resSeed.allPaths ∧
      exploreNeighbors gwC1 5 ⟨0, 0⟩ [cE, cA] [⟨0, 0⟩] dfs0 =
        exploreNeighbors gwC1 5 ⟨0, 0⟩ [cA] [⟨0, 0⟩] handledE ∧
      (∃ s1, handleCellExploration gwFail (0 + 1) ⟨0, 0⟩ cA [⟨0, 0⟩] dfs0 = some s1 ∧
        s1.allPaths = dfs0.allPaths) ∧
      pr3 ∈ stC4.results :=
  ⟨c3_failure_containment.1 gwC1 100 [⟨0, 0⟩] dfsSeed resSeed rfl prB (by decide),
    c3_failure_containment.2.1 gwC1 5 ⟨0, 0⟩ cE [cA] [⟨0, 0⟩] dfs0 handledE rfl,
    c3_failure_containment.2.2.1 gwFail 0 ⟨0, 0⟩ cA [⟨0, 0⟩] dfs0 ("panne") rfl (by decide),
    c3_failure_containment.2.2.2 gwC4 100 storeC1 pairC4.1 pairC4.2 stC4 rfl rfl pr3
      (by decide)⟩

theorem followSteps_nil (gw : Gateway) (s : StoreState) :
    followSteps gw [] s =
      { finishExploration ("Le joueur est arrivé à la sortie !") s with isFinish := true } := rfl

theorem followSteps_cons (gw : Gateway) (step : CellCoordinates)
    (rest : List CellCoordinates) (s : StoreState) :
    followSteps gw (step :: rest) s =
      match moveToCell gw step s with
      | (Except.ok _, s1) =>
        followSteps gw rest (addLog ("Déplacement vers (" ++ toString step.x ++ ", "
          ++ toString step.y ++ ")") s1)
      | (Except.error err, s1) =>
        addLog ("Échec déplacement vers (" ++ toString step.x ++ ", " ++ toString step.y
          ++ ") : " ++ err) s1 := rfl

theorem moveToCell_error_state (gw : Gateway) (pos : CellCoordinates) (s s1 : StoreState)
    (err : String) (h : moveToCell gw pos s = (Except.error err, s1)) :
    s1 = addLog ("Erreur lors du move vers (" ++ toString pos.x ++ ", " ++ toString pos.y
      ++ ") : " ++ err) (recordCall (GCall.move s.moveUrl pos.x pos.y) s) := by
  unfold moveToCell at h
  rcases hg : gw.move s.moveUrl pos.x pos.y with e | r
  · rw [hg] at h
    dsimp only at h
    injection h with h1 h2
    injection h1 with h1
    rw [← h2, h1]
  · rw [hg] at h
    dsimp only at h
    injection h with h1 h2
    exact Except.noConfusion h1

theorem followSteps_allOk (gw : Gateway) (hok : AlwaysMoves gw) :
    ∀ (steps : List CellCoordinates) (s : StoreState),
      moveTargets (followSteps gw steps s).calls =
          moveTargets s.calls ++ steps.map (fun p => (p.x, p.y)) ∧
        (followSteps gw steps s).isFinish = true ∧
        ("Le joueur est arrivé à la sortie !") ∈ (followSteps gw steps s).log := by
  intro steps
  induction steps with
  | nil =>
    intro s
    rw [followSteps_nil]
    refine ⟨by simp [finishExploration, addLog], rfl, ?_⟩
    simp [finishExploration, addLog]
  | cons step rest ih =>
    intro s
    obtain ⟨r, hr⟩ := hok s.moveUrl step.x step.y
    have hmc : moveToCell gw step s = (Except.ok (),
        updateFromMove r (recordCall (GCall.move s.moveUrl step.x step.y) s)) := by
      unfold moveToCell
      rw [hr]
    have heq : followSteps gw (step :: rest) s = followSteps gw rest
        (addLog ("Déplacement vers (" ++ toString step.x ++ ", " ++ toString step.y ++ ")")
          (updateFromMove r (recordCall (GCall.move s.moveUrl step.x step.y) s))) := by
      rw [followSteps_cons, hmc]
    rw [heq]
    obtain ⟨ih1, ih2, ih3⟩ := ih (addLog ("Déplacement vers (" ++ toString step.x ++ ", "
      ++ toString step.y ++ ")")
      (updateFromMove r (recordCall (GCall.move s.moveUrl step.x step.y) s)))
    refine ⟨?_, ih2, ih3⟩
    rw [ih1]
    simp [addLog, updateFromMove, updateGameState, recordCall, moveTargets,
      List.filterMap_append]

/-- Claim C6: when a move fails at a navigation step, the navigator logs
the failure, issues no further gateway calls (only the one failed move
request was added to the trace), and leaves the `finished` flag exactly as
it was — it is never set on the failure route.  The first conjunct ties
`followShortestPath` on nonempty results to this step loop over
`results[0]` without its first coordinate. -/
theorem c6_move_failure_stops (gw : Gateway) :
    (∀ store : StoreState, store.results ≠ [] →
        followShortestPath gw store =
          followSteps gw ((store.results.headD default).path.drop 1)
            (addLog ("Début du trajet vers la sortie ("
              ++ toString (store.results.headD default).length ++ " étapes).") store)) ∧
    (∀ (step : CellCoordinates) (rest : List CellCoordinates) (s s1 : StoreState)
        (err : String),
        moveToCell gw step s = (Except.error err, s1) →
        followSteps gw (step :: rest) s =
            addLog ("Échec déplacement vers (" ++ toString step.x ++ ", " ++ toString step.y
              ++ ") : " ++ err) s1 ∧
          (followSteps gw (step :: rest) s).isFinish = s.isFinish ∧
          (followSteps gw (step :: rest) s).calls =
            s.calls ++ [GCall.move s.moveUrl step.x step.y]) := by
  constructor
  · intro store hne
    unfold followShortestPath
    dsimp only
    rw [if_neg (fun hc => hne (List.length_eq_zero.1 hc))]
  · intro step rest s s1 err h
    have heq : followSteps gw (step :: rest) s =
        addLog ("Échec déplacement vers (" ++ toString step.x ++ ", " ++ toString step.y
          ++ ") : " ++ err) s1 := by
      rw [followSteps_cons, h]
    have hs1 := moveToCell_error_state gw step s s1 err h
    refine ⟨heq, ?_, ?_⟩
    · rw [heq, hs1]
      simp [addLog, recordCall]
    · rw [heq, hs1]
      simp [addLog, recordCall]

/-- Witness for C6: with the network down, navigating the stored shortest
path fails at its only step, logs the failure, adds exactly one move
request and leaves `finished` untouched. -/
theorem c6_move_failure_stops_witness :
    (followShortestPath gwFail storeNav =
        followSteps gwFail ((storeNav.results.headD default).path.drop 1)
          (addLog ("Début du trajet vers la sortie ("
            ++ toString (storeNav.results.headD default).length ++ " étapes).") storeNav)) ∧
      (followSteps gwFail [⟨0, 1⟩] storeNav =
          addLog ("Échec déplacement vers (0, 1) : panne") s1W ∧
        (followSteps gwFail [⟨0, 1⟩] storeNav).isFinish = storeNav.isFinish ∧
        (followSteps gwFail [⟨0, 1⟩] storeNav).calls =
          storeNav.calls ++ [GCall.move storeNav.moveUrl 0 1]) :=
  ⟨(c6_move_failure_stops gwFail).1 storeNav (by decide),
    (c6_move_failure_stops gwFail).2 ⟨0, 1⟩ [] storeNav s1W ("panne") rfl⟩

/-- Claim C7: with nonempty `results` and a gateway whose moves always
succeed, `followShortestPath` selects `results[0]`, issues exactly one
move per coordinate of its path except the first — the move targets added
to the trace are exactly the coordinates of `path.drop 1`, which counts
`path.length - 1` moves — then logs arrival and sets `finished`. -/
theorem c7_follow_shortest (gw : Gateway) (store : StoreState)
    (hok : AlwaysMoves gw) (hne : store.results ≠ []) :
    moveTargets (followShortestPath gw store).calls =
        moveTargets store.calls ++
          ((store.results.headD default).path.drop 1).map (fun p => (p.x, p.y)) ∧
      ((store.results.headD default).path.drop 1).length =
        (store.results.headD default).path.length - 1 ∧
      (followShortestPath gw store).isFinish = true ∧
      ("Le joueur est arrivé à la sortie !") ∈ (followShortestPath gw store).log := by
  have heq : followShortestPath gw store = followSteps gw
      ((store.results.headD default).path.drop 1)
      (addLog ("Début du trajet vers la sortie ("
        ++ toString (store.results.headD default).length ++ " étapes).") store) := by
    unfold followShortestPath
    dsimp only
    rw [if_neg (fun hc => hne (List.length_eq_zero.1 hc))]
  obtain ⟨h1, h2, h3⟩ := followSteps_allOk gw hok ((store.results.headD default).path.drop 1)
    (addLog ("Début du trajet vers la sortie ("
      ++ toString (store.results.headD default).length ++ " étapes).") store)
  rw [heq]
  refine ⟨?_, List.length_drop 1 _, h2, h3⟩
  rw [h1]
  rfl

/-- Witness for C7: navigating the stored results over the C1 gateway
(whose moves always succeed) issues exactly the single move of the
length-2 path and finishes. -/
theorem c7_follow_shortest_witness :
    moveTargets (followShortestPath gwC1 storeNav).calls =
        moveTargets storeNav.calls ++
          ((storeNav.results.headD default).path.drop 1).map (fun p => (p.x, p.y)) ∧
      ((storeNav.results.headD default).path.drop 1).length =
        (storeNav.results.headD default).path.length - 1 ∧
      (followShortestPath gwC1 storeNav).isFinish = true ∧
      ("Le joueur est arrivé à la sortie !") ∈ (followShortestPath gwC1 storeNav).log :=
  c7_follow_shortest gwC1 storeNav
    (fun url x y => ⟨⟨x, y, false, false, "m", urlOf ⟨x, y⟩⟩, rfl⟩) (by decide)

theorem mapLookup_mapSet_self (m : List (CellCoordinates × Cell)) (k : CellCoordinates)
    (v : Cell) : mapLookup (mapSet m k v) k = some v := by
  induction m with
  | nil =>
    simp [mapSet, mapLookup]
  | cons hd rest ih =>
    rcases hd with ⟨k', v'⟩
    unfold mapSet
    by_cases hk : k' = k
    · rw [if_pos hk]
      simp [mapLookup]
    · rw [if_neg hk]
      unfold mapLookup
      rw [if_neg hk]
      exact ih

theorem mapLookup_mapSet_ne (m : List (CellCoordinates × Cell)) (k : CellCoordinates)
    (v : Cell) (k2 : CellCoordinates) (h : k ≠ k2) :
    mapLookup (mapSet m k v) k2 = mapLookup m k2 := by
  induction m with
  | nil =>
    simp [mapSet, mapLookup, if_neg h]
  | cons hd rest ih =>
    rcases hd with ⟨k', v'⟩
    unfold mapSet
    by_cases hk : k' = k
    · rw [if_pos hk]
      unfold mapLookup
      rw [if_neg h, if_neg (hk ▸ h)]
    · rw [if_neg hk]
      unfold mapLookup
      by_cases hk2 : k' = k2
      · rw [if_pos hk2, if_pos hk2]
      · rw [if_neg hk2, if_neg hk2]
        exact ih

theorem length_le_mapSet (m : List (CellCoordinates × Cell)) (k : CellCoordinates)
    (v : Cell) : m.length ≤ (mapSet m k v).length := by
  induction m with
  | nil =>
    simp [mapSet]
  | cons hd rest ih =>
    rcases hd with ⟨k', v'⟩
    unfold mapSet
    by_cases hk : k' = k
    · rw [if_pos hk]
      simp
    · rw [if_neg hk]
      simpa using ih

theorem isSome_mapLookup_mapSet (m : List (CellCoordinates × Cell)) (k : CellCoordinates)
    (v : Cell) (k2 : CellCoordinates) (h : (mapLookup m k2).isSome) :
    (mapLookup (mapSet m k v) k2).isSome := by
  by_cases hk : k = k2
  · rw [← hk, mapLookup_mapSet_self]
    rfl
  · rw [mapLookup_mapSet_ne m k v k2 hk]
    exact h

theorem foldl_mapSet_facts :
    ∀ (cells : List Cell) (m : List (CellCoordinates × Cell)),
      m.length ≤ (cells.foldl (fun m c => mapSet m (cellCoord c) c) m).length ∧
        (∀ k, (mapLookup m k).isSome →
          (mapLookup (cells.foldl (fun m c => mapSet m (cellCoord c) c) m) k).isSome) ∧
        (∀ k, (∀ c ∈ cells, cellCoord c ≠ k) →
          mapLookup (cells.foldl (fun m c => mapSet m (cellCoord c) c) m) k =
            mapLookup m k) := by
  intro cells
  induction cells with
  | nil =>
    intro m
    exact ⟨le_refl _, fun k h => h, fun k _ => rfl⟩
  | cons c rest ih =>
    intro m
    obtain ⟨ih1, ih2, ih3⟩ := ih (mapSet m (cellCoord c) c)
    refine ⟨le_trans (length_le_mapSet m (cellCoord c) c) ih1, ?_, ?_⟩
    · intro k h
      exact ih2 k (isSome_mapLookup_mapSet m (cellCoord c) c k h)
    · intro k hk
      rw [List.foldl_cons, ih3 k (fun c2 hc2 => hk c2 (List.mem_cons_of_mem _ hc2))]
      exact mapLookup_mapSet_ne m (cellCoord c) c k (hk c (List.mem_cons_self c rest))

/-- Claim C9: `discoverCells` merges a batch only by inserting or
overwriting per coordinate key: every key present before stays present,
keys outside the batch keep their cell, the cell count never decreases,
and over any sequence of recorded discover batches the map grows
monotonically. -/
theorem c9_discoverCells_monotone :
    (∀ (cells : List Cell) (s : StoreState),
        s.map.length ≤ (discoverCells cells s).map.length ∧
          (∀ k, (mapLookup s.map k).isSome →
            (mapLookup (discoverCells cells s).map k).isSome) ∧
          (∀ k, (∀ c ∈ cells, cellCoord c ≠ k) →
            mapLookup (discoverCells cells s).map k = mapLookup s.map k)) ∧
    (∀ (batches : List (List Cell)) (s : StoreState) (k : CellCoordinates),
        (mapLookup s.map k).isSome →
        (mapLookup (batches.foldl (fun st cs => discoverCells cs st) s).map k).isSome) ∧
    (∀ (batches : List (List Cell)) (s : StoreState),
        s.map.length ≤
          ((batches.foldl (fun st cs => discoverCells cs st) s).map).length) := by
  refine ⟨?_, ?_, ?_⟩
  · intro cells s
    exact foldl_mapSet_facts cells s.map
  · intro batches
    induction batches with
    | nil =>
      intro s k h
      exact h
    | cons cs rest ih =>
      intro s k h
      exact ih (discoverCells cs s) k ((foldl_mapSet_facts cs s.map).2.1 k h)
  · intro batches
    induction batches with
    | nil =>
      intro s
      exact le_refl _
    | cons cs rest ih =>
      intro s
      exact le_trans (foldl_mapSet_facts cs s.map).1 (ih (discoverCells cs s))

/-- Witness for C9: the cell discovered at (5,5) survives one merge and a
sequence of two merges. -/
theorem c9_discoverCells_monotone_witness :
    (mapLookup (discoverCells [cE] storeMap).map ⟨5, 5⟩).isSome = true ∧
      (mapLookup (([[cA], [cE]].foldl (fun st cs => discoverCells cs st) storeMap).map)
        ⟨5, 5⟩).isSome = true :=
  ⟨(c9_discoverCells_monotone.1 [cE] storeMap).2.1 ⟨5, 5⟩ (by decide),
    c9_discoverCells_monotone.2.1 [[cA], [cE]] storeMap ⟨5, 5⟩ (by decide)⟩

theorem exploreFromCell_root (gw : Gateway) (fuel : Nat) (start : CellCoordinates)
    (store : StoreState) :
    exploreFromCell gw (fuel + 1) [start] ⟨store, [], []⟩ =
      match tryMoveToCell gw start store with
      | (false, st1) => some ⟨st1, [start], []⟩
      | (true, st1) =>
        match getDiscoverableNeighbors gw (logExplorationStep start 1 st1) with
        | (none, st3) => some ⟨st3, [start], []⟩
        | (some neighbors, st3) =>
          exploreNeighborsAux gw (exploreFromCell gw fuel) start neighbors [start]
            ⟨st3, [start], []⟩ := rfl

/-- Claim C10: the first DFS frame of `explore()` issues a move request to
the start position itself before any discover request — the first gateway
call appended by a run is always that self-move; and when the gateway
rejects it, `explore` still resolves to `some` state that differs from the
initial one only by the recorded move request and three log entries (the
two move-failure entries and the final "no path found" entry), so
`results` is left exactly as it was (empty on a fresh session) and no
discover request is ever issued. -/
theorem c10_first_move_is_start (gw : Gateway) (fuel : Nat) (store : StoreState) :
    (∀ st', explore gw (fuel + 1) store = some st' →
        (st'.calls.drop store.calls.length).head? =
          some (GCall.move store.moveUrl store.position.x store.position.y)) ∧
    (∀ err, gw.move store.moveUrl store.position.x store.position.y = Except.error err →
        explore gw (fuel + 1) store =
          some { store with
            calls := store.calls ++
              [GCall.move store.moveUrl store.position.x store.position.y]
            log := store.log ++
              ["Erreur lors du move vers (" ++ toString store.position.x ++ ", "
                ++ toString store.position.y ++ ") : " ++ err,
                "Erreur déplacement vers (" ++ toString store.position.x ++ ", "
                  ++ toString store.position.y ++ ") : " ++ err,
                "Aucun chemin vers la sortie trouvé."] }) := by
  constructor
  · intro st' hrun
    obtain ⟨ap, st1, hs, hres, hceq, hcase⟩ :=
      explore_results_cases gw (fuel + 1) store st' hrun
    obtain ⟨resS, he, hap, hst⟩ :=
      startExploration_elim gw (fuel + 1) store.position store ap st1 hs
    rw [exploreFromCell_root] at he
    rcases hm : tryMoveToCell gw store.position store with ⟨moved, stm⟩
    rw [hm] at he
    have hcallsm : stm.calls = store.calls ++
        [GCall.move store.moveUrl store.position.x store.position.y] := by
      have h2 := calls_tryMoveToCell gw store.position store
      rw [hm] at h2
      exact h2
    cases moved with
    | false =>
      cases he
      rw [hceq, hst]
      dsimp only
      rw [hcallsm, List.drop_left]
      rfl
    | true =>
      dsimp only at he
      rcases hd : getDiscoverableNeighbors gw (logExplorationStep store.position 1 stm)
        with ⟨dres, st3⟩
      rw [hd] at he
      have hcalls3 : st3.calls = stm.calls ++
          [GCall.discover (logExplorationStep store.position 1 stm).discoverUrl] := by
        have h2 := calls_getDiscoverableNeighbors gw (logExplorationStep store.position 1 stm)
        rw [hd] at h2
        exact h2
      cases dres with
      | none =>
        cases he
        rw [hceq, hst]
        dsimp only
        rw [hcalls3, hcallsm, List.append_assoc, List.drop_left]
        rfl
      | some neighbors =>
        have hE := extends_neighborsAux gw (exploreFromCell gw fuel)
          (fun p t r hh => extends_exploreFromCell gw fuel p t r hh) store.position
          neighbors [store.position] ⟨st3, [store.position], []⟩ resS he
        obtain ⟨_, _, ⟨nc, hnc⟩, _⟩ := hE
        rw [hceq, hst, hnc]
        dsimp only
        rw [hcalls3, hcallsm, List.append_assoc, List.append_assoc, List.drop_left]
        rfl
  · intro err hmv
    have hmt : tryMoveToCell gw store.position store = (false,
        addLog ("Erreur déplacement vers (" ++ toString store.position.x ++ ", "
          ++ toString store.position.y ++ ") : " ++ err)
          (addLog ("Erreur lors du move vers (" ++ toString store.position.x ++ ", "
            ++ toString store.position.y ++ ") : " ++ err)
            (recordCall (GCall.move store.moveUrl store.position.x store.position.y)
              store))) := by
      unfold tryMoveToCell moveToCell
      dsimp only
      rw [hmv]
    have hse : startExploration gw (fuel + 1) store.position store = some ([],
        addLog ("Erreur déplacement vers (" ++ toString store.position.x ++ ", "
          ++ toString store.position.y ++ ") : " ++ err)
          (addLog ("Erreur lors du move vers (" ++ toString store.position.x ++ ", "
            ++ toString store.position.y ++ ") : " ++ err)
            (recordCall (GCall.move store.moveUrl store.position.x store.position.y)
              store))) := by
      unfold startExploration
      rw [exploreFromCell_root, hmt]
    unfold explore
    dsimp only
    rw [hse]
    dsimp only
    simp [addLog, recordCall, List.append_assoc]

/-- Witness for C10: with the network down, the only call `explore` issues
is the initial self-move, and the run resolves with untouched results and
the three failure log entries. -/
theorem c10_first_move_is_start_witness :
    (stFail.calls.drop storeC1.calls.length).head? =
        some (GCall.move storeC1.moveUrl storeC1.position.x storeC1.position.y) ∧
      explore gwFail (0 + 1) storeC1 =
        some { storeC1 with
          calls := storeC1.calls ++
            [GCall.move storeC1.moveUrl storeC1.position.x storeC1.position.y]
          log := storeC1.log ++
            ["Erreur lors du move vers (" ++ toString storeC1.position.x ++ ", "
              ++ toString storeC1.position.y ++ ") : " ++ "panne",
              "Erreur déplacement vers (" ++ toString storeC1.position.x ++ ", "
                ++ toString storeC1.position.y ++ ") : " ++ "panne",
              "Aucun chemin vers la sortie trouvé."] } :=
  ⟨(c10_first_move_is_start gwFail 0 storeC1).1 stFail rfl,
    (c10_first_move_is_start gwFail 0 storeC1).2 ("panne") rfl⟩

end Maze
